import Mathlib

/-!
Verification of the schema-to-C++ lowering core of `scripts/lsp_codegen.py`
(the eventide repository's LSP metaModel code generator).

The Python source is shallowly embedded below.  Conventions of the embedding:

* Python strings are Lean `String`s; character-level operations
  (`str.isupper`, `str.lower`, …) are modelled by the corresponding ASCII
  predicates, which agree with CPython on the ASCII identifiers and
  documentation text the generator manipulates.
* Python `dict`s are modelled as association lists in insertion order;
  `d[k]` / `d.get(k)` is last-write-wins lookup, and iteration over
  `sorted(d)` is modelled by sorting the deduplicated key list.
* Python `set`s of strings (or of `(kind, name)` nodes) are modelled by
  sorted deduplicated lists, which is the canonical representation of an
  unordered collection; every place the generator lets a set's iteration
  order reach the output it first applies `sorted(...)`.
* The memoisation caches (`flattened_property_cache`, `struct_dep_cache`)
  are modelled as transparent (pure recomputation); an explicit stateful
  model of the cache is also given for the termination/caching claims.
* Fallible paths (`dict` lookups that would raise `KeyError`) return
  `Option`; call sites in the generator guard membership before calling.
-/

namespace LspCodegen

/-- Keyword set `CPP_KEYWORDS` from the source (C++23 keywords). -/
def CPP_KEYWORDS : List String :=
  ["alignas", "alignof", "and", "and_eq", "asm", "auto", "bitand", "bitor", "bool",
   "break", "case", "catch", "char", "char8_t", "char16_t", "char32_t", "class",
   "compl", "concept", "const", "consteval", "constexpr", "constinit", "const_cast",
   "continue", "co_await", "co_return", "co_yield", "decltype", "default", "delete",
   "do", "double", "dynamic_cast", "else", "enum", "explicit", "export", "extern",
   "false", "float", "for", "friend", "goto", "if", "inline", "int", "long",
   "mutable", "namespace", "new", "noexcept", "not", "not_eq", "nullptr", "operator",
   "or", "or_eq", "private", "protected", "public", "register", "reinterpret_cast",
   "requires", "return", "short", "signed", "sizeof", "static", "static_assert",
   "static_cast", "struct", "switch", "template", "this", "thread_local", "throw",
   "true", "try", "typedef", "typeid", "typename", "union", "unsigned", "using",
   "virtual", "void", "volatile", "wchar_t", "while", "xor", "xor_eq"]

/-- Names `RECURSIVE_ALIASES` from the source. -/
def RECURSIVE_ALIASES : List String := ["LSPAny", "LSPArray", "LSPObject"]

/-- Python `c.isalnum() or c == "_"` (regex word character), ASCII. -/
def isWordChar (c : Char) : Bool := c.isAlphanum || c = '_'

/-- Python whitespace class (the characters stripped by `str.strip()` and
matched by the regex class backslash-s), ASCII subset. -/
def isPySpace (c : Char) : Bool :=
  c = ' ' || c = '\t' || c = '\n' || c = '\r' || c.toNat = 11 || c.toNat = 12

/-- Python `s.lower()` over ASCII. -/
def pyLower (s : String) : String := ⟨s.data.map Char.toLower⟩

/-- Helper for `camel_to_snake`: walks the characters carrying the previous
character (`none` at index 0), mirroring the Python index arithmetic. -/
def camelToSnakeAux : Option Char → List Char → List Char
  | _, [] => []
  | prev, c :: rest =>
    let tail := camelToSnakeAux (some c) rest
    if c.isUpper then
      let boundary :=
        match prev with
        | none => false
        | some p =>
          p.isLower || (match rest with
                        | n :: _ => n.isLower
                        | [] => false)
      (if boundary then ['_', c.toLower] else [c.toLower]) ++ tail
    else c :: tail

/-- Function `camel_to_snake` from the source. -/
def camel_to_snake (name : String) : String := ⟨camelToSnakeAux none name.data⟩

/-- Python `s.strip("_")` : drop leading and trailing underscores. -/
def stripUnderscores (l : List Char) : List Char :=
  ((l.dropWhile (· = '_')).reverse.dropWhile (· = '_')).reverse

/-- Function `sanitize_identifier` from the source.  Returns the sanitized
text and the keyword-collision flag. -/
def sanitize_identifier (name : String) (fallback : String := "value") :
    String × Bool :=
  let chars := name.data.map (fun c => if c.isAlphanum || c = '_' then c else '_')
  let text := stripUnderscores chars
  let text := if text.isEmpty then fallback.data else text
  let text :=
    match text with
    | c :: _ => if c.isDigit then '_' :: text else text
    | [] => text
  let textS : String := ⟨text⟩
  let keywordHit := textS ∈ CPP_KEYWORDS
  if keywordHit then (textS ++ "_", true) else (textS, false)

/-- Function `sanitize_type_identifier` from the source. -/
def sanitize_type_identifier (name : String) (fallback : String := "Type") :
    String :=
  let chars := name.data.map (fun c => if c.isAlphanum || c = '_' then c else '_')
  let text := if chars.isEmpty then fallback.data else chars
  let text :=
    match text with
    | c :: _ => if c.isDigit then 'T' :: '_' :: text else text
    | [] => text
  let text :=
    match text with
    | '_' :: _ => 'L' :: 's' :: 'p' :: text
    | _ => text
  let textS : String := ⟨text⟩
  if textS ∈ CPP_KEYWORDS then textS ++ "_" else textS

/-- Decimal digit as a character. -/
def digitChar (d : Nat) : Char :=
  match d with
  | 0 => '0' | 1 => '1' | 2 => '2' | 3 => '3' | 4 => '4'
  | 5 => '5' | 6 => '6' | 7 => '7' | 8 => '8' | 9 => '9'
  | _ => '*'

/-- Fuel-indexed decimal rendering of a natural number (most significant
digit first); `fuel` bounds the recursion depth and any `fuel > n` is exact. -/
def natReprAux : Nat → Nat → List Char
  | 0, _ => []
  | fuel + 1, n =>
    if n < 10 then [digitChar n]
    else natReprAux fuel (n / 10) ++ [digitChar (n % 10)]

/-- Decimal rendering of a natural number, mirroring Python `str(n)`. -/
def natRepr (n : Nat) : String := ⟨natReprAux (n + 1) n⟩

/-- Decimal rendering of an integer, mirroring Python `str(i)`. -/
def intRepr (i : Int) : String :=
  if i < 0 then "-" ++ natRepr i.natAbs else natRepr i.natAbs

/-- Regex `re.sub` of the pattern "one or more non-word characters" with a
single underscore, written as a left-to-right scan whose flag records
whether the previous character was part of a replaced run. -/
def squashNonWordAux : Bool → List Char → List Char
  | _, [] => []
  | prevRepl, c :: rest =>
    if isWordChar c then c :: squashNonWordAux false rest
    else if prevRepl then squashNonWordAux true rest
    else '_' :: squashNonWordAux true rest

/-- Replacement step of `enum_member_upper_camel` (collapse non-word runs). -/
def squashNonWord (l : List Char) : List Char := squashNonWordAux false l

/-- Python `s.split(sep)` for a single separator character. -/
def splitChar (sep : Char) : List Char → List (List Char)
  | [] => [[]]
  | c :: rest =>
    match splitChar sep rest with
    | [] => [[]]
    | g :: gs => if c = sep then [] :: g :: gs else (c :: g) :: gs

/-- Python `part[:1].upper() + part[1:]` (capitalise the first character). -/
def upperFirst : List Char → List Char
  | [] => []
  | c :: rest => c.toUpper :: rest

/-- Function `enum_member_upper_camel` from the source. -/
def enum_member_upper_camel (text : String) (fallback : String) : String :=
  let normalized := squashNonWord text.data
  let snake := camelToSnakeAux none normalized
  let parts := (splitChar '_' snake).filter (fun p => !p.isEmpty)
  let candidate :=
    if parts.isEmpty then fallback.data
    else (parts.map upperFirst).flatten
  let candidate :=
    match candidate with
    | c :: _ => if c.isDigit then 'V' :: candidate else candidate
    | [] => candidate
  let candS : String := ⟨candidate⟩
  if candS ∈ CPP_KEYWORDS then candS ++ "_" else candS

/-- Lexicographic less-or-equal on character lists by code point, the order
Python uses to compare `str` values. -/
def charListLe : List Char → List Char → Bool
  | [], _ => true
  | _ :: _, [] => false
  | c :: cs, d :: ds =>
    if c.toNat < d.toNat then true
    else if d.toNat < c.toNat then false
    else charListLe cs ds

/-- Lexicographic strictly-less on character lists by code point. -/
def charListLt : List Char → List Char → Bool
  | [], [] => false
  | [], _ :: _ => true
  | _ :: _, [] => false
  | c :: cs, d :: ds =>
    if c.toNat < d.toNat then true
    else if d.toNat < c.toNat then false
    else charListLt cs ds

/-- Python `a <= b` on strings. -/
def strLe (a b : String) : Bool := charListLe a.data b.data

/-- Python `a < b` on strings. -/
def strLt (a b : String) : Bool := charListLt a.data b.data

/-- Insertion step of the stable sort: the new element goes in front of the
first position that is not strictly below it, so that elements comparing
equal keep their original relative order (Python `sorted` is stable). -/
def insertSorted {α : Type} (le : α → α → Bool) (x : α) : List α → List α
  | [] => [x]
  | y :: ys => if le y x && !le x y then y :: insertSorted le x ys else x :: y :: ys

/-- Stable ascending sort, mirroring Python `sorted(...)`. -/
def stableSortBy {α : Type} (le : α → α → Bool) : List α → List α
  | [] => []
  | x :: xs => insertSorted le x (stableSortBy le xs)

/-- Sorting of a list of strings, mirroring Python `sorted(...)` on `str`. -/
def sortStrings (l : List String) : List String :=
  stableSortBy strLe l

/-- Candidate tried by the `build_name_map` collision loop for a given
suffix number. -/
def suffixCandidate (base : String) (suffix : Nat) : String :=
  base ++ "_" ++ natRepr suffix

/-- While-loop of `build_name_map` that appends `_2`, `_3`, … until the
candidate is unused.  `fuel` bounds the iterations; `used.length + 1`
iterations always suffice (proved below). -/
def freshLoop (base : String) (used : List String) : Nat → Nat → String
  | 0, suffix => suffixCandidate base suffix
  | fuel + 1, suffix =>
    let cand := suffixCandidate base suffix
    if cand ∈ used then freshLoop base used fuel (suffix + 1) else cand

/-- Candidate selection of `build_name_map` for one name: the sanitized base
if unused, otherwise the first unused suffixed candidate. -/
def pickCandidate (base : String) (used : List String) : String :=
  if base ∈ used then freshLoop base used (used.length + 1) 2 else base

/-- Loop body fold of `build_name_map`: the accumulated output association
list (in assignment order) and the set of used candidates (as a list). -/
def buildNameMapAux : List String → List (String × String) → List String →
    List (String × String) × List String
  | [], out, used => (out, used)
  | original :: rest, out, used =>
    let base := sanitize_type_identifier original "Type"
    let candidate := pickCandidate base used
    buildNameMapAux rest (out ++ [(original, candidate)]) (candidate :: used)

/-- Function `build_name_map` from the source, as the association list of
assignments in the order they are made (iteration over the sorted names).
Later assignments for a repeated name shadow earlier ones, exactly as the
Python `dict` write does. -/
def build_name_map (definition_names : List String) : List (String × String) :=
  (buildNameMapAux (sortStrings definition_names) [] []).1

/-- Lookup in an association list with Python `dict` semantics: the most
recent write for the key wins. -/
def dictLookup (l : List (String × String)) (key : String) : Option String :=
  (l.reverse.find? (fun p => p.1 = key)).map (·.2)

/-- Python `.splitlines()` line breaks recognised by the embedding
(`\n`, `\r\n`, `\r`). -/
def splitLinesCore : List Char → List (List Char)
  | [] => [[]]
  | '\r' :: '\n' :: rest => [] :: splitLinesCore rest
  | '\n' :: rest => [] :: splitLinesCore rest
  | '\r' :: rest => [] :: splitLinesCore rest
  | c :: rest =>
    match splitLinesCore rest with
    | [] => [[c]]
    | g :: gs => (c :: g) :: gs

/-- Python `s.splitlines()`: like a split on line breaks except that the
empty input yields no lines and a trailing break adds no empty line. -/
def pySplitlines (s : String) : List String :=
  let r := splitLinesCore s.data
  let r := if r.getLast? = some [] then r.dropLast else r
  r.map fun l => ⟨l⟩

/-- Python `s.rstrip()` (trailing whitespace removal). -/
def pyRstrip (s : String) : String :=
  ⟨(s.data.reverse.dropWhile isPySpace).reverse⟩

/-- Python `s.strip()` (leading and trailing whitespace removal). -/
def pyStrip (s : String) : String :=
  ⟨((s.data.dropWhile isPySpace).reverse.dropWhile isPySpace).reverse⟩

/-- Literal match: does `s` start with the word `w`, and if so what is the
rest? -/
def litMatch (w : List Char) (s : List Char) : Option (List Char) :=
  if s.take w.length = w then some (s.drop w.length) else none

/-- Word boundary to the left of a word character, given the preceding
character (`none` at the start of the text). -/
def boundaryBeforeWord : Option Char → Bool
  | none => true
  | some c => !isWordChar c

/-- Word boundary to the right of a word, given the remaining text. -/
def boundaryAfterWord : List Char → Bool
  | [] => true
  | c :: _ => !isWordChar c

/-- Anchored match of the regex used by `documentation_mentions_tag`
(word boundary, optional at-sign, the tag, word boundary) at the current
position, given the preceding character. -/
def tagAt (tag : List Char) (prev : Option Char) (s : List Char) : Bool :=
  (boundaryBeforeWord prev &&
    (match litMatch tag s with
     | some rest => boundaryAfterWord rest
     | none => false)) ||
  (match s with
   | '@' :: rest =>
     (match prev with
      | some c => isWordChar c
      | none => false) &&
     (match litMatch tag rest with
      | some r => boundaryAfterWord r
      | none => false)
   | _ => false)

/-- Unanchored search for `tagAt` over all positions of the text. -/
def searchTag (tag : List Char) : Option Char → List Char → Bool
  | prev, [] => tagAt tag prev []
  | prev, c :: rest => tagAt tag prev (c :: rest) || searchTag tag (some c) rest

/-- Function `documentation_mentions_tag` from the source: a case-insensitive
regex search for the tag, optionally preceded by an at-sign, delimited by
word boundaries.  Case-insensitivity is modelled by lowering both sides. -/
def documentation_mentions_tag (documentation : Option String) (tag : String) :
    Bool :=
  match documentation with
  | none => false
  | some d =>
    if d.isEmpty then false
    else searchTag (pyLower tag).data none (pyLower d).data

/-- One-or-more whitespace characters (regex class), greedy; the suspicious
patterns all follow the run with a letter, so greediness is exact. -/
def wsPlus (s : List Char) : Option (List Char) :=
  match s with
  | c :: rest => if isPySpace c then some (rest.dropWhile isPySpace) else none
  | [] => none

/-- Tail of the two `omitted` patterns: any run not containing a period or a
newline, followed by the literal `true`. -/
def scanToTrue : List Char → Bool
  | [] => false
  | s@(c :: rest) =>
    (litMatch "true".data s).isSome ||
    (if c ≠ '.' && c ≠ '\n' then scanToTrue rest else false)

/-- Anchored match of one of the five `SUSPICIOUS_BOOL_PATTERNS` at the
current position (text already lowered). -/
def suspiciousAt (s : List Char) : Bool :=
  let seqTrue : Option (List Char) → Bool := fun r =>
    match r with
    | some rest =>
      (match wsPlus rest with
       | some r2 => (litMatch "true".data r2).isSome
       | none => false)
    | none => false
  let p1 :=
    match litMatch "default".data s with
    | some rest =>
      (match rest with
       | 's' :: r2 =>
         (match wsPlus r2 with
          | some r3 => seqTrue (litMatch "to".data r3)
          | none => false)
       | _ => false) ||
      (match wsPlus rest with
       | some r3 => seqTrue (litMatch "to".data r3)
       | none => false)
    | none => false
  let p2 :=
    match litMatch "default".data s with
    | some rest =>
      (match wsPlus rest with
       | some r2 =>
         (match litMatch "is".data r2 with
          | some r3 => seqTrue (some r3)
          | none => false)
       | none => false)
    | none => false
  let p3 :=
    match litMatch "true".data s with
    | some rest =>
      (match wsPlus rest with
       | some r2 =>
         (match litMatch "by".data r2 with
          | some r3 =>
            (match wsPlus r3 with
             | some r4 => (litMatch "default".data r4).isSome
             | none => false)
          | none => false)
       | none => false)
    | none => false
  let pOmit : List Char → Bool := fun w =>
    match litMatch w s with
    | some rest =>
      (match wsPlus rest with
       | some r2 =>
         (match litMatch "omitted".data r2 with
          | some r3 => scanToTrue r3
          | none => false)
       | none => false)
    | none => false
  p1 || p2 || p3 || pOmit "if".data || pOmit "when".data

/-- Unanchored search for a suspicious pattern over all positions. -/
def suspiciousSearch : List Char → Bool
  | [] => suspiciousAt []
  | c :: rest => suspiciousAt (c :: rest) || suspiciousSearch rest

/-- Match of the module-level `SUSPICIOUS_BOOL_PATTERNS` against a
documentation string (all five patterns are case-insensitive searches). -/
def suspiciousBoolMatch (doc : String) : Bool :=
  suspiciousSearch (pyLower doc).data

/-- Hexadecimal digit (upper nibble helper for JSON escapes; `json.dumps`
emits lowercase hex). -/
def hexChar (d : Nat) : Char :=
  match d with
  | 0 => '0' | 1 => '1' | 2 => '2' | 3 => '3' | 4 => '4'
  | 5 => '5' | 6 => '6' | 7 => '7' | 8 => '8' | 9 => '9'
  | 10 => 'a' | 11 => 'b' | 12 => 'c' | 13 => 'd' | 14 => 'e'
  | 15 => 'f' | _ => '*'

/-- Four-digit lowercase hex rendering used by JSON unicode escapes. -/
def hex4 (n : Nat) : List Char :=
  [hexChar (n / 4096 % 16), hexChar (n / 256 % 16),
   hexChar (n / 16 % 16), hexChar (n % 16)]

/-- Escape of a single character under Python `json.dumps` with the default
`ensure_ascii=True`: printable ASCII except quote and backslash is literal,
the named C0 escapes are used, and everything else becomes unicode escapes
(surrogate pairs above the basic plane). -/
def jsonEscapeChar (c : Char) : List Char :=
  if c = '"' then ['\\', '"']
  else if c = '\\' then ['\\', '\\']
  else if c = '\n' then ['\\', 'n']
  else if c = '\t' then ['\\', 't']
  else if c = '\r' then ['\\', 'r']
  else if c.toNat = 8 then ['\\', 'b']
  else if c.toNat = 12 then ['\\', 'f']
  else if 32 ≤ c.toNat && c.toNat ≤ 126 then [c]
  else if c.toNat < 65536 then '\\' :: 'u' :: hex4 c.toNat
  else
    let v := c.toNat - 65536
    ('\\' :: 'u' :: hex4 (55296 + v / 1024)) ++
    ('\\' :: 'u' :: hex4 (56320 + v % 1024))

/-- Python `json.dumps(s)` for a string value. -/
def json_dumps_string (s : String) : String :=
  ⟨'"' :: (s.data.map jsonEscapeChar).flatten ++ ['"']⟩

mutual

/-- Schema type expressions (the `type` dictionaries of the metaModel),
one constructor per `kind` the generator understands.  The payload of a
`literal` keeps the property names and types of the anonymous shape (the
fields the generator walks); property documentation is not modelled. -/
inductive TypeExpr where
  | base (name : String)
  | reference (name : String)
  | array (element : TypeExpr)
  | mapType (key value : TypeExpr)
  | tuple (items : TypeList)
  | orType (items : TypeList)
  | andType (items : TypeList)
  | literal (props : PropList)
  | stringLiteral (value : String)
  | integerLiteral (value : Int)
  | booleanLiteral (value : Bool)
deriving DecidableEq

/-- List of type expressions (spelled out so that the mutual induction
stays structural and every function on it reduces definitionally). -/
inductive TypeList where
  | nil
  | cons (head : TypeExpr) (tail : TypeList)
deriving DecidableEq

/-- Property list of an anonymous `literal` shape: names and types. -/
inductive PropList where
  | nil
  | cons (name : String) (ty : TypeExpr) (tail : PropList)
deriving DecidableEq

end

/-- Conversion of a `TypeList` to an ordinary list. -/
def TypeList.toList : TypeList → List TypeExpr
  | .nil => []
  | .cons h t => h :: t.toList

/-- Conversion of an ordinary list to a `TypeList`. -/
def TypeList.ofList : List TypeExpr → TypeList
  | [] => .nil
  | h :: t => .cons h (TypeList.ofList t)

/-- Name held by a type-expression dictionary, when it has one; models
Python `type_expr.get("name")` (present on `base` and `reference` kinds). -/
def TypeExpr.dictName : TypeExpr → Option String
  | .base n => some n
  | .reference n => some n
  | _ => none

/-- Record `DocInfo` from the source. -/
structure DocInfo where
  documentation : Option String
  since : Option String
  since_tags : List String
  deprecated : Option String
  proposed : Bool
deriving DecidableEq

/-- The all-absent documentation record (`DocInfo()` in Python). -/
def DocInfo.empty : DocInfo := ⟨none, none, [], none, false⟩

/-- Record `PropertyDef` from the source. -/
structure PropertyDef where
  name : String
  type_expr : TypeExpr
  optional : Bool
  doc : DocInfo
deriving DecidableEq

/-- Record `StructDef` from the source. -/
structure StructDef where
  name : String
  parents : List String
  properties : List PropertyDef
  doc : DocInfo
deriving DecidableEq

/-- An enum member's `value` field: a JSON string or integer. -/
inductive EnumVal where
  | str (v : String)
  | int (v : Int)
deriving DecidableEq

/-- Python `str(value)` on an enum member value. -/
def EnumVal.pyStr : EnumVal → String
  | .str v => v
  | .int v => intRepr v

/-- Record `EnumValueDef` from the source. -/
structure EnumValueDef where
  name : String
  value : EnumVal
  doc : DocInfo
deriving DecidableEq

/-- Record `EnumDef` from the source. -/
structure EnumDef where
  name : String
  type_expr : TypeExpr
  values : List EnumValueDef
  supports_custom_values : Bool
  doc : DocInfo
deriving DecidableEq

/-- Record `AliasDef` from the source. -/
structure AliasDef where
  name : String
  type_expr : TypeExpr
  doc : DocInfo
deriving DecidableEq

/-- Record `RequestDef` from the source. -/
structure RequestDef where
  method : String
  type_name : Option String
  params : Option TypeExpr
  result : Option TypeExpr
  doc : DocInfo
deriving DecidableEq

/-- Record `NotificationDef` from the source. -/
structure NotificationDef where
  method : String
  type_name : Option String
  params : Option TypeExpr
  doc : DocInfo
deriving DecidableEq

/-- Record `ExtraParamDef` from the source. -/
structure ExtraParamDef where
  name : String
  method : String
deriving DecidableEq

/-- Record `FlattenedProperty` from the source. -/
structure FlattenedProperty where
  prop : PropertyDef
  declared_in : String
deriving DecidableEq

/-- Record `MemberDef` from the source. -/
structure MemberDef where
  cxx_type : String
  base_name : String
  comments : List String
  default_value : Option String
deriving DecidableEq

/-- Raw `structures` entry of the decoded metaModel JSON: the fields
`parse_schema` reads before it computes the parent list. -/
structure RawStructure where
  name : String
  extendsList : List TypeExpr
  mixins : List TypeExpr
  properties : List PropertyDef
  doc : DocInfo
deriving DecidableEq

/-- Decoded metaModel JSON: the five definition-entry lists the generator
consumes, in file order.  Enumeration, alias, request and notification
entries already carry exactly the fields `parse_schema` extracts, so they
are modelled by the parsed records directly. -/
structure Schema where
  structures : List RawStructure
  enumerations : List EnumDef
  typeAliases : List AliasDef
  requests : List RequestDef
  notifications : List NotificationDef
deriving DecidableEq

/-- Record `SchemaModel` from the source; the Python name-keyed `dict`s are
modelled as association lists in insertion order. -/
structure SchemaModel where
  structures : List (String × StructDef)
  enumerations : List (String × EnumDef)
  aliases : List (String × AliasDef)
  requests : List RequestDef
  notifications : List NotificationDef

/-- Parent computation of `parse_schema` for one structure entry:
`extends ++ mixins`, keeping the names of reference-kind entries. -/
def parseStruct (item : RawStructure) : StructDef :=
  ⟨item.name,
   (item.extendsList ++ item.mixins).filterMap fun t =>
     match t with
     | .reference n => some n
     | _ => none,
   item.properties,
   item.doc⟩

/-- Function `parse_schema` from the source. -/
def parse_schema (s : Schema) : SchemaModel :=
  ⟨s.structures.map (fun it => (it.name, parseStruct it)),
   s.enumerations.map (fun e => (e.name, e)),
   s.typeAliases.map (fun a => (a.name, a)),
   s.requests,
   s.notifications⟩

/-- Python `dict` lookup on an association list: the most recent write for
the key wins. -/
def alookup {α : Type} (l : List (String × α)) (k : String) : Option α :=
  (l.reverse.find? (fun p => p.1 == k)).map (·.2)

/-- Sorted unique key list of a Python `dict` modelled as an association
list; models every `sorted(d)` / sorted-set iteration over the keys. -/
def sortedKeys {α : Type} (l : List (String × α)) : List String :=
  sortStrings (l.map (·.1)).dedup

/-- Python `sorted(items, key=lambda item: item.method)` (a stable sort by
a string key). -/
def sortByMethod {α : Type} (key : α → String) (l : List α) : List α :=
  stableSortBy (fun a b => strLe (key a) (key b)) l

/-- Canonical read-only view of a `SchemaModel`, capturing exactly how the
generator consumes it: name-keyed lookups, sorted unique name lists (every
iteration over the name sets is sorted before it can reach the output),
and the request/notification lists sorted by method (every output use site
applies `sorted_by_method`; the method-keyed fallback dictionary for extra
params is order-insensitive once methods are unique). -/
structure CModel where
  structFind : String → Option StructDef
  structNames : List String
  enumFind : String → Option EnumDef
  enumNames : List String
  aliasFind : String → Option AliasDef
  aliasNames : List String
  requests : List RequestDef
  notifications : List NotificationDef

/-- Canonicalisation of a parsed schema model. -/
def canonModel (m : SchemaModel) : CModel :=
  ⟨alookup m.structures, sortedKeys m.structures,
   alookup m.enumerations, sortedKeys m.enumerations,
   alookup m.aliases, sortedKeys m.aliases,
   sortByMethod RequestDef.method m.requests,
   sortByMethod NotificationDef.method m.notifications⟩

/-- Python `s.endswith(t)`. -/
def pyEndsWith (s suffix : String) : Bool :=
  s.data.drop (s.data.length - suffix.data.length) = suffix.data &&
    suffix.data.length ≤ s.data.length

/-- Drop of the last `n` characters (Python `s[:-n]`). -/
def dropLastChars (s : String) (n : Nat) : String :=
  ⟨s.data.take (s.data.length - n)⟩

/-- Python `re.split` on runs of non-alphanumeric characters, modelled by a
per-character split (filtering the empty groups afterwards yields exactly
the alphanumeric runs). -/
def splitNonAlnum : List Char → List (List Char)
  | [] => [[]]
  | c :: rest =>
    match splitNonAlnum rest with
    | [] => [[]]
    | g :: gs => if c.isAlphanum then (c :: g) :: gs else [] :: g :: gs

/-- Function `method_to_type_name` from the source. -/
def method_to_type_name (method : String) (suffix : String) : String :=
  let parts := (splitNonAlnum method.data).filter (fun p => !p.isEmpty)
  let base : List Char :=
    if parts.isEmpty then "Method".data else (parts.map upperFirst).flatten
  (⟨base⟩ : String) ++ suffix

/-- Function `derive_params_name` from the source (an empty declared type
name is falsy in Python and falls through to the method-derived name). -/
def derive_params_name (type_name : Option String) (method : String) : String :=
  match type_name with
  | some tn =>
    if tn.isEmpty then method_to_type_name method "Params"
    else if pyEndsWith tn "Request" then dropLastChars tn 7 ++ "Params"
    else if pyEndsWith tn "Notification" then dropLastChars tn 12 ++ "Params"
    else method_to_type_name method "Params"
  | none => method_to_type_name method "Params"

/-- Function `collect_extra_params` from the source: placeholder params for
every request and notification without a `params` field, requests first. -/
def collect_extra_params (requests : List RequestDef)
    (notifications : List NotificationDef) : List ExtraParamDef :=
  (requests.filter (fun r => r.params.isNone)).map
    (fun r => ⟨derive_params_name r.type_name r.method, r.method⟩) ++
  (notifications.filter (fun n => n.params.isNone)).map
    (fun n => ⟨derive_params_name n.type_name n.method, n.method⟩)

/-- Lookup `name_map.get(name, sanitize_type_identifier(name, "Type"))`, the
defaulted access the renderer uses everywhere. -/
def nmGet (nm : List (String × String)) (k : String) : String :=
  (alookup nm k).getD (sanitize_type_identifier k "Type")

/-- Hard index `name_map[name]`; the generator only indexes names that are
in the map (a missing key would raise), modelled by an empty-string
default on the unreachable branch. -/
def nmIndex (nm : List (String × String)) (k : String) : String :=
  (alookup nm k).getD ""

/-- Membership of the `TypeRenderer.closed_string_enum_names` set: a
string-based enumeration without custom values. -/
def isClosedStringEnum (m : CModel) (name : String) : Bool :=
  match m.enumFind name with
  | some e => e.type_expr.dictName == some "string" && !e.supports_custom_values
  | none => false

/-- Literal texts (`str(value.value)`) of an enumeration's members. -/
def enumLiteralTexts (e : EnumDef) : List String :=
  e.values.map (fun v => v.value.pyStr)

/-- The `closed_string_literal_owner` map: the owning enum of a literal text
that occurs in exactly one closed string enum.  The owner-candidate sets are
modelled by filtering the (sorted, unique) enum-name list. -/
def closedStringLiteralOwner (m : CModel) (literal : String) : Option String :=
  match m.enumNames.filter (fun n =>
      isClosedStringEnum m n &&
      (match m.enumFind n with
       | some e => literal ∈ enumLiteralTexts e
       | none => false)) with
  | [owner] => some owner
  | _ => none

/-- Deduplication preserving first-seen order (the `seen`/`unique` loop of
`render_or`). -/
def dedupKeepFirstAux : List String → List String → List String
  | [], _ => []
  | x :: xs, seen =>
    if x ∈ seen then dedupKeepFirstAux xs seen
    else x :: dedupKeepFirstAux xs (x :: seen)

/-- Entry point of the first-seen deduplication. -/
def dedupKeepFirst (l : List String) : List String := dedupKeepFirstAux l []

/-- Test for a `base` type expression named `null` (the arm `render_or`
separates out). -/
def isNullBase : TypeExpr → Bool
  | .base n => n == "null"
  | _ => false

mutual

/-- Method `TypeRenderer.render_type` from the source.  The `owner` string
argument of the Python method is carried for diagnostics only (it can reach
the output nowhere) and is dropped by the embedding; the unsupported-kind
error path cannot arise because `TypeExpr` enumerates exactly the supported
kinds. -/
def render_type (m : CModel) (nm : List (String × String)) :
    TypeExpr → Option String → String
  | .base name, _ => name
  | .reference ref_name, current_struct =>
    if current_struct == some ref_name then
      "std::shared_ptr<" ++ nmGet nm ref_name ++ ">"
    else if isClosedStringEnum m ref_name then
      "enum_string<" ++ nmGet nm ref_name ++ ">"
    else nmGet nm ref_name
  | .array element, current_struct =>
    "std::vector<" ++ render_type m nm element current_struct ++ ">"
  | .mapType key value, current_struct =>
    "std::map<" ++ render_type m nm key current_struct ++ ", " ++
      render_type m nm value current_struct ++ ">"
  | .tuple items, current_struct =>
    let xs := render_item_list m nm items current_struct
    if xs.isEmpty then "std::tuple<>"
    else "std::tuple<" ++ String.intercalate ", " xs ++ ">"
  | .orType items, current_struct =>
    let ri := render_or_items m nm items current_struct
    let unique := dedupKeepFirst ri.1
    if ri.2 && unique.length == 1 then
      "nullable<" ++ unique.headI ++ ">"
    else
      let unique := if ri.2 then "null" :: unique else unique
      (match unique with
       | [] => "null"
       | [x] => x
       | _ => "variant<" ++ String.intercalate ", " unique ++ ">")
  | .andType items, current_struct =>
    let xs := render_item_list m nm items current_struct
    match xs with
    | [x] => x
    | _ => "std::tuple<" ++ String.intercalate ", " xs ++ ">"
  | .literal _, _ => "LspEmptyObject"
  | .stringLiteral value, _ =>
    (match closedStringLiteralOwner m value with
     | some owner_enum => "enum_string<" ++ nmGet nm owner_enum ++ ">"
     | none => "string")
  | .integerLiteral _, _ => "integer"
  | .booleanLiteral _, _ => "boolean"

/-- Renders each item of a type list (the comprehensions in the `tuple` and
`and` branches). -/
def render_item_list (m : CModel) (nm : List (String × String)) :
    TypeList → Option String → List String
  | .nil, _ => []
  | .cons h t, current_struct =>
    render_type m nm h current_struct :: render_item_list m nm t current_struct

/-- First loop of `TypeRenderer.render_or`: renders the non-null arms in
order and records whether a `null` arm was seen. -/
def render_or_items (m : CModel) (nm : List (String × String)) :
    TypeList → Option String → List String × Bool
  | .nil, _ => ([], false)
  | .cons item rest, current_struct =>
    let tail := render_or_items m nm rest current_struct
    if isNullBase item then (tail.1, true)
    else (render_type m nm item current_struct :: tail.1, tail.2)

end

/-- Method `TypeRenderer.render_or` from the source (the body of the
`orType` branch of `render_type`, written as its own definition; the two
agree definitionally). -/
def render_or (m : CModel) (nm : List (String × String))
    (items : TypeList) (current_struct : Option String) : String :=
  let ri := render_or_items m nm items current_struct
  let rendered := ri.1
  let saw_null := ri.2
  let unique := dedupKeepFirst rendered
  if saw_null && unique.length == 1 then
    "nullable<" ++ unique.headI ++ ">"
  else
    let unique := if saw_null then "null" :: unique else unique
    match unique with
    | [] => "null"
    | [x] => x
    | _ => "variant<" ++ String.intercalate ", " unique ++ ">"

mutual

/-- Size of a type expression (counts every node); used as recursion fuel
for the subtype test. -/
def teSize : TypeExpr → Nat
  | .base _ => 1
  | .reference _ => 1
  | .array e => 1 + teSize e
  | .mapType k v => 1 + teSize k + teSize v
  | .tuple items => 1 + tlSize items
  | .orType items => 1 + tlSize items
  | .andType items => 1 + tlSize items
  | .literal props => 1 + plSize props
  | .stringLiteral _ => 1
  | .integerLiteral _ => 1
  | .booleanLiteral _ => 1

/-- Size of a type list. -/
def tlSize : TypeList → Nat
  | .nil => 1
  | .cons h t => 1 + teSize h + tlSize t

/-- Size of a literal property list. -/
def plSize : PropList → Nat
  | .nil => 1
  | .cons _ ty t => 1 + teSize ty + plSize t

end

/-- Length of a type list (Python `len(items)`). -/
def tlLength : TypeList → Nat
  | .nil => 0
  | .cons _ t => 1 + tlLength t

mutual

/-- Method `Generator.is_type_subtype` from the source, with an explicit
recursion-depth budget.  Every recursive call consumes one unit and
strictly decreases the combined `teSize`/`tlSize` measure of its arguments,
so a budget of `teSize child + teSize parent` (used by the `is_type_subtype`
wrapper) never reaches the zero case: the fuelled function is exact there.
Equality `child == parent` is structural equality of the modelled type
dictionaries. -/
def is_type_subtype_fuel : Nat → TypeExpr → TypeExpr → Bool
  | 0, _, _ => false
  | fuel + 1, child, parent =>
    if child = parent then true
    else
      match parent with
      | .orType pitems => subtypeAnyParent fuel child pitems
      | _ =>
        match child with
        | .orType citems =>
          citems ≠ TypeList.nil && subtypeAllChild fuel citems parent
        | _ =>
          match parent with
          | .base pname =>
            (match child with
             | .base cname => cname == pname
             | .stringLiteral _ => pname == "string"
             | .integerLiteral v =>
               pname == "integer" || (pname == "uinteger" && decide (0 ≤ v))
             | .booleanLiteral _ => pname == "boolean"
             | _ => false)
          | .stringLiteral pv =>
            (match child with
             | .stringLiteral cv => cv == pv
             | _ => false)
          | .integerLiteral pv =>
            (match child with
             | .integerLiteral cv => cv == pv
             | _ => false)
          | .booleanLiteral pv =>
            (match child with
             | .booleanLiteral cv => cv == pv
             | _ => false)
          | .reference pn =>
            (match child with
             | .reference cn => cn == pn
             | _ => false)
          | .array pe =>
            (match child with
             | .array ce => is_type_subtype_fuel fuel ce pe
             | _ => false)
          | .mapType pk pv =>
            (match child with
             | .mapType ck cv =>
               is_type_subtype_fuel fuel ck pk && is_type_subtype_fuel fuel cv pv
             | _ => false)
          | .tuple pitems =>
            (match child with
             | .tuple citems =>
               tlLength pitems == tlLength citems && subtypeZip fuel citems pitems
             | _ => false)
          | _ => false

/-- Disjunction over the arms of an `or` parent. -/
def subtypeAnyParent : Nat → TypeExpr → TypeList → Bool
  | 0, _, _ => false
  | _ + 1, _, .nil => false
  | fuel + 1, child, .cons p ps =>
    is_type_subtype_fuel fuel child p || subtypeAnyParent fuel child ps

/-- Conjunction over the arms of an `or` child. -/
def subtypeAllChild : Nat → TypeList → TypeExpr → Bool
  | 0, _, _ => false
  | _ + 1, .nil, _ => true
  | fuel + 1, .cons c cs, parent =>
    is_type_subtype_fuel fuel c parent && subtypeAllChild fuel cs parent

/-- Element-wise test over zipped tuple arms (lengths already equal). -/
def subtypeZip : Nat → TypeList → TypeList → Bool
  | 0, _, _ => false
  | _ + 1, .nil, _ => true
  | _ + 1, _, .nil => true
  | fuel + 1, .cons c cs, .cons p ps =>
    is_type_subtype_fuel fuel c p && subtypeZip fuel cs ps

end

/-- Entry point of the subtype test with its exact budget. -/
def is_type_subtype (child parent : TypeExpr) : Bool :=
  is_type_subtype_fuel (teSize child + teSize parent) child parent

/-- Method `Generator.is_safe_override` from the source: the decision and
its reason string. -/
def is_safe_override (parent_prop child_prop : PropertyDef) : Bool × String :=
  if parent_prop.name ≠ child_prop.name then
    (false, "member-name collision between `" ++ parent_prop.name ++
            "` and `" ++ child_prop.name ++ "`")
  else if child_prop.optional && !parent_prop.optional then
    (false, "child field is optional while parent field is required")
  else if !is_type_subtype child_prop.type_expr parent_prop.type_expr then
    (false, "child field type is not a safe subtype of parent field type")
  else
    (true, "safe narrowing")

/-- Function `split_documentation` from the source. -/
def split_documentation (documentation : Option String) : List String :=
  match documentation with
  | none => []
  | some d => if d.isEmpty then [] else (pySplitlines d).map pyRstrip

/-- The `append_tag_line` closure of `build_doc_lines`. -/
def appendTagLine (lines : List String) (tag_line : String) : List String :=
  lines ++ (pySplitlines tag_line).map pyRstrip

/-- Function `build_doc_lines` from the source. -/
def build_doc_lines (doc : DocInfo) : List String :=
  let lines := split_documentation doc.documentation
  let has_since := documentation_mentions_tag doc.documentation "since"
  let has_since_tags := documentation_mentions_tag doc.documentation "sinceTags"
  let has_deprecated := documentation_mentions_tag doc.documentation "deprecated"
  let has_proposed := documentation_mentions_tag doc.documentation "proposed"
  let lines :=
    match doc.since with
    | some s => if !s.isEmpty && !has_since then appendTagLine lines ("@since " ++ s) else lines
    | none => lines
  let lines :=
    if !doc.since_tags.isEmpty && !has_since && !has_since_tags then
      appendTagLine lines ("@sinceTags " ++ String.intercalate ", " doc.since_tags)
    else lines
  let lines :=
    match doc.deprecated with
    | some s =>
      if !s.isEmpty && !has_deprecated then appendTagLine lines ("@deprecated " ++ s) else lines
    | none => lines
  let lines :=
    if doc.proposed && !has_proposed then appendTagLine lines "@proposed" else lines
  (lines.reverse.dropWhile String.isEmpty).reverse

/-- Function `append_doc` from the source (returns the extended line list). -/
def append_doc (out : List String) (indent : String) (comments : List String) :
    List String :=
  if comments.isEmpty then out
  else
    out ++ comments.map (fun line =>
      if line.isEmpty then indent ++ "///" else indent ++ "/// " ++ line)

/-- Dependency-graph node: a `(kind, name)` pair with kind `S`, `E` or `A`. -/
abbrev Node := String × String

/-- Tuple comparison on nodes, as Python compares `(kind, name)` pairs. -/
def nodeLe (a b : Node) : Bool :=
  strLt a.1 b.1 || (a.1 == b.1 && strLe a.2 b.2)

/-- Python `sorted(...)` on a list of nodes. -/
def sortNodes (l : List Node) : List Node := stableSortBy nodeLe l

mutual

/-- Method `Generator._walk_type_refs` from the source, returning the nodes
it would add to the `out` set (in traversal order, possibly repeated; every
consumer treats the result as a set). -/
def walkTypeRefs (m : CModel) (current_struct : String) : TypeExpr → List Node
  | .reference ref =>
    if ref == current_struct then []
    else if (m.structFind ref).isSome then [("S", ref)]
    else if (m.enumFind ref).isSome then [("E", ref)]
    else if (m.aliasFind ref).isSome && ref ∉ RECURSIVE_ALIASES then [("A", ref)]
    else []
  | .stringLiteral v =>
    (match closedStringLiteralOwner m v with
     | some owner_enum =>
       if (m.enumFind owner_enum).isSome then [("E", owner_enum)] else []
     | none => [])
  | .array e => walkTypeRefs m current_struct e
  | .mapType k v => walkTypeRefs m current_struct k ++ walkTypeRefs m current_struct v
  | .tuple items => walkTypeRefsList m current_struct items
  | .orType items => walkTypeRefsList m current_struct items
  | .andType items => walkTypeRefsList m current_struct items
  | .literal props => walkTypeRefsProps m current_struct props
  | .base _ => []
  | .integerLiteral _ => []
  | .booleanLiteral _ => []

/-- Walk over the items of an `or`/`and`/`tuple` expression. -/
def walkTypeRefsList (m : CModel) (current_struct : String) : TypeList → List Node
  | .nil => []
  | .cons h t =>
    walkTypeRefs m current_struct h ++ walkTypeRefsList m current_struct t

/-- Walk over the properties of an anonymous `literal` shape. -/
def walkTypeRefsProps (m : CModel) (current_struct : String) : PropList → List Node
  | .nil => []
  | .cons _ ty t =>
    walkTypeRefs m current_struct ty ++ walkTypeRefsProps m current_struct t

end

/-- Method `Generator.collect_flattened_properties` from the source, without
the memo cache (the cache is transparent whenever the parent chain is
acyclic, and an explicit cached model is given below).  `fuel` bounds the
recursion depth; the parent chain pushes a new name on the stack at every
level and stops on revisits, so any `fuel` exceeding the number of distinct
structure names is exact (proved below).  The `none` branch models the
`KeyError` the Python raises on an unknown name; every call site guards
membership first. -/
def collect_flattened_properties (m : CModel) :
    Nat → String → List String → List FlattenedProperty
  | 0, _, _ => []
  | fuel + 1, struct_name, stack =>
    if struct_name ∈ stack then []
    else
      match m.structFind struct_name with
      | none => []
      | some struct_def =>
        let inherited :=
          match struct_def.parents with
          | [parent] =>
            if (m.structFind parent).isSome then
              collect_flattened_properties m fuel parent (struct_name :: stack)
            else []
          | _ => []
        inherited ++ struct_def.properties.map (fun p => ⟨p, struct_name⟩)

/-- Recursion budget that is always sufficient for the flattening. -/
def flattenFuel (m : CModel) : Nat := m.structNames.length + 1

/-- Top-level flattening call (`collect_flattened_properties(name)`)
without the run-wide memo cache.  This is the value the memoised method
returns whenever the parent chain is acyclic (proved below); on cyclic
chains the cached method's result depends on which struct a run flattens
first, which the cache-explicit model (`depsLoop`, `flattenRead`,
`generate_protocol_header_ordered`) captures. -/
def collectFlattened (m : CModel) (struct_name : String) : List FlattenedProperty :=
  collect_flattened_properties m (flattenFuel m) struct_name []

/-- Stateful model of `collect_flattened_properties` with its memo cache:
returns the result together with the updated cache.  Mirrors the Python
method line by line: a cache hit returns immediately, a revisited name on
the stack returns the empty list without caching, and a computed result is
cached before returning. -/
def collect_flattened_cached (m : CModel) :
    Nat → List (String × List FlattenedProperty) → String → List String →
    List FlattenedProperty × List (String × List FlattenedProperty)
  | 0, cache, _, _ => ([], cache)
  | fuel + 1, cache, struct_name, stack =>
    match alookup cache struct_name with
    | some cached => (cached, cache)
    | none =>
      if struct_name ∈ stack then ([], cache)
      else
        match m.structFind struct_name with
        | none => ([], cache)
        | some struct_def =>
          let step :=
            match struct_def.parents with
            | [parent] =>
              if (m.structFind parent).isSome then
                collect_flattened_cached m fuel cache parent (struct_name :: stack)
              else ([], cache)
            | _ => ([], cache)
          let out := step.1 ++ struct_def.properties.map (fun p => ⟨p, struct_name⟩)
          (out, step.2 ++ [(struct_name, out)])

/-- Method `Generator.struct_dependencies` from the source (the per-struct
cache is transparent: the method is pure).  The returned set is canonical:
sorted, deduplicated, with the self node discarded. -/
def struct_dependencies (m : CModel) (struct_name : String) : List Node :=
  let raw :=
    match m.structFind struct_name with
    | none => []
    | some struct_def =>
      (if struct_def.parents.length > 1 then
         struct_def.parents.filterMap (fun parent =>
           if (m.structFind parent).isSome then some (("S", parent) : Node) else none)
       else []) ++
      ((collectFlattened m struct_name).map (fun (flat : FlattenedProperty) =>
         walkTypeRefs m flat.declared_in flat.prop.type_expr)).flatten
  (sortNodes raw.dedup).filter (fun d => d ≠ ("S", struct_name))

/-- Node list of `Generator.build_node_dependencies`: all structures, all
enumerations and all non-recursive aliases, sorted (the Python returns
`sorted(nodes)`). -/
def buildNodes (m : CModel) : List Node :=
  sortNodes
    (m.structNames.map (fun n => (("S", n) : Node)) ++
     m.enumNames.map (fun n => (("E", n) : Node)) ++
     (m.aliasNames.filter (fun n => n ∉ RECURSIVE_ALIASES)).map
       (fun n => (("A", n) : Node)))

/-- Dependency sets of `Generator.build_node_dependencies`, as a function
from nodes to canonical sorted dependency lists, filtered to the node set
(the final comprehension of the Python method). -/
def nodeDeps (m : CModel) (node : Node) : List Node :=
  let raw :=
    if node.1 == "S" then struct_dependencies m node.2
    else if node.1 == "A" then
      match m.aliasFind node.2 with
      | some alias_def =>
        if node.2 ∈ RECURSIVE_ALIASES then []
        else
          (sortNodes (walkTypeRefs m node.2 alias_def.type_expr).dedup).filter
            (fun d => d ≠ node)
      | none => []
    else []
  raw.filter (fun dep => dep ∈ buildNodes m)

/-- Pointwise update of an integer-valued node map. -/
def updFn (f : Node → Int) (k : Node) (v : Int) : Node → Int :=
  fun x => if x = k then v else f x

/-- Indegree initialisation of `topological_order`: one count per edge from
a dependency that is itself a node. -/
def initIndegree (nodes : List Node) (deps : Node → List Node) : Node → Int :=
  nodes.foldl
    (fun f n =>
      (deps n).foldl
        (fun g dep => if dep ∈ nodes then updFn g n (g n + 1) else g) f)
    (fun _ => 0)

/-- Reverse-edge sets of `topological_order`, consumed only through
`sorted(reverse[node])`: the sorted list of nodes that depend on `dep`. -/
def reverseSorted (nodes : List Node) (deps : Node → List Node) (dep : Node) :
    List Node :=
  sortNodes ((nodes.filter (fun n => dep ∈ deps n)).dedup)

/-- Kahn loop of `topological_order`: pops the queue front, appends it to
the order, decrements the indegrees of its sorted successors and enqueues
those that reach zero.  `fuel` bounds the iterations; the caller passes a
bound that exceeds the greatest possible number of pops, so the loop always
ends by exhausting the queue exactly as the Python `while` does. -/
def kahnLoop (reverse : Node → List Node) :
    Nat → List Node → (Node → Int) → List Node → List Node
  | 0, _, _, ordered => ordered
  | fuel + 1, queue, indegree, ordered =>
    match queue with
    | [] => ordered
    | node :: rest =>
      let step :=
        (reverse node).foldl
          (fun (st : (Node → Int) × List Node) nxt =>
            let d := st.1 nxt - 1
            (updFn st.1 nxt d, if d = 0 then st.2 ++ [nxt] else st.2))
          (indegree, rest)
      kahnLoop reverse fuel step.2 step.1 (ordered ++ [node])

/-- Kahn phase of `topological_order`: the sorted zero-indegree queue is
processed to exhaustion (the fuel strictly exceeds the possible number of
pops, so the loop always ends with an empty queue exactly like the Python
`while`). -/
def kahnPart (nodes : List Node) (deps : Node → List Node) : List Node :=
  let indegree := initIndegree nodes deps
  let queue := sortNodes (nodes.filter (fun n => indegree n == 0))
  kahnLoop (reverseSorted nodes deps) (2 * nodes.length + 1) queue indegree []

/-- Function `topological_order` from the source. -/
def topological_order (nodes : List Node) (deps : Node → List Node) : List Node :=
  let ordered := kahnPart nodes deps
  if ordered.length ≠ nodes.length then
    ordered ++ (sortNodes nodes).filter (fun n => n ∉ ordered)
  else ordered

/-- Method `Generator.build_node_order` from the source. -/
def build_node_order (m : CModel) : List Node :=
  topological_order (buildNodes m) (nodeDeps m)

/-- Function `smallest_unsigned_type` from the source. -/
def smallest_unsigned_type (max_value : Int) : String :=
  if max_value ≤ 255 then "std::uint8_t"
  else if max_value ≤ 65535 then "std::uint16_t"
  else if max_value ≤ 4294967295 then "std::uint32_t"
  else "std::uint64_t"

/-- Function `smallest_signed_type` from the source. -/
def smallest_signed_type (min_value max_value : Int) : String :=
  if -128 ≤ min_value && max_value ≤ 127 then "std::int8_t"
  else if -32768 ≤ min_value && max_value ≤ 32767 then "std::int16_t"
  else if -2147483648 ≤ min_value && max_value ≤ 2147483647 then "std::int32_t"
  else "std::int64_t"

/-- Python `min` over a non-empty integer list (`0` on the guarded-empty
case, which no caller reaches). -/
def intListMin : List Int → Int
  | [] => 0
  | v :: rest => rest.foldl min v

/-- Python `max` over a non-empty integer list. -/
def intListMax : List Int → Int
  | [] => 0
  | v :: rest => rest.foldl max v

/-- Underlying-type selection of `emit_enum` for integer-based
enumerations: closed enums with at least one declared integer value narrow
to the smallest fitting fixed-width type, open enums (and closed enums
without integer values) keep the declared base. -/
def emit_enum_underlying (base_name : String) (supports_custom_values : Bool)
    (values : List Int) : String :=
  if !supports_custom_values then
    if values.isEmpty then base_name
    else if base_name == "integer" then
      smallest_signed_type (intListMin values) (intListMax values)
    else smallest_unsigned_type (intListMax values)
  else base_name

/-- The diagnostics collector of the generator: exactly the four warning
lists `Generator.__init__` creates (there is no other diagnostics channel
in the program). -/
structure Diags where
  keyword_hits : List String
  bool_default_warnings : List String
  member_collision_warnings : List String
  unsafe_override_warnings : List String
deriving DecidableEq

/-- The empty diagnostics collector. -/
def Diags.empty : Diags := ⟨[], [], [], []⟩

/-- Append to `keyword_hits`. -/
def Diags.addKeyword (d : Diags) (s : String) : Diags :=
  ⟨d.keyword_hits ++ [s], d.bool_default_warnings, d.member_collision_warnings,
   d.unsafe_override_warnings⟩

/-- Append to `bool_default_warnings`. -/
def Diags.addBool (d : Diags) (s : String) : Diags :=
  ⟨d.keyword_hits, d.bool_default_warnings ++ [s], d.member_collision_warnings,
   d.unsafe_override_warnings⟩

/-- Append to `member_collision_warnings`. -/
def Diags.addCollision (d : Diags) (s : String) : Diags :=
  ⟨d.keyword_hits, d.bool_default_warnings,
   d.member_collision_warnings ++ [s], d.unsafe_override_warnings⟩

/-- Append to `unsafe_override_warnings`. -/
def Diags.addUnsafe (d : Diags) (s : String) : Diags :=
  ⟨d.keyword_hits, d.bool_default_warnings, d.member_collision_warnings,
   d.unsafe_override_warnings ++ [s]⟩

/-- Member-name dictionary of one closed string enum
(`closed_string_enum_literal_members[enum]`): literal text to deduplicated
UpperCamel member name, written in value order (a repeated literal text
overwrites, as the Python dict write does). -/
def enumLiteralMembersAux : List EnumValueDef → Nat → List String →
    List (String × String)
  | [], _, _ => []
  | v :: rest, index, usedBases =>
    let base := enum_member_upper_camel v.value.pyStr ("Value" ++ natRepr (index + 1))
    let d := usedBases.count base
    let member := if d = 0 then base else base ++ natRepr (d + 1)
    (v.value.pyStr, member) :: enumLiteralMembersAux rest (index + 1) (base :: usedBases)

/-- Lookup `closed_string_enum_literal_members.get(enum, {}).get(literal)`:
the outer dictionary has exactly the closed string enums as keys. -/
def closedStringEnumLiteralMember (m : CModel) (enum_name literal : String) :
    Option String :=
  if isClosedStringEnum m enum_name then
    match m.enumFind enum_name with
    | some e => alookup (enumLiteralMembersAux e.values 0 []) literal
    | none => none
  else none

/-- Method `Generator.is_optional_bool` from the source. -/
def is_optional_bool (prop : PropertyDef) : Bool :=
  prop.optional && prop.type_expr == TypeExpr.base "boolean"

/-- Method `Generator.bool_default_needs_warning` from the source. -/
def bool_default_needs_warning (prop : PropertyDef) : Bool :=
  match prop.doc.documentation with
  | none => false
  | some d => if (pyStrip d).isEmpty then false else suspiciousBoolMatch d

/-- Method `Generator.property_member_name` from the source. -/
def property_member_name (schema_property_name : String) : String × Bool :=
  sanitize_identifier (camel_to_snake schema_property_name) "field"

/-- Python `s.startswith(t)`. -/
def pyStartsWith (s prefixStr : String) : Bool :=
  s.data.take prefixStr.data.length = prefixStr.data

/-- Method `Generator.make_member` from the source, threading the
diagnostics collector explicitly.  The member value never depends on the
incoming collector, so the type/default shaping is written as a pure pair
and the two diagnostic appends (the suspicious-optional-bool warning,
raised exactly in the optional-bool branch, and the keyword-collision
note) follow it; the `owner_path` string the Python builds is carried into
`render_type` for diagnostics only and is dropped. -/
def make_member (m : CModel) (nm : List (String × String)) (diags : Diags)
    (owner_struct : String) (flat_prop : FlattenedProperty)
    (inherited_from : Option String) : MemberDef × Diags :=
  let prop := flat_prop.prop
  let rendered0 := render_type m nm prop.type_expr (some flat_prop.declared_in)
  let shaped : String × Option String :=
    if is_optional_bool prop then ("optional_bool", some "\x7b\x7d")
    else if prop.optional then
      (if pyStartsWith rendered0 "variant<" && pyEndsWith rendered0 ">" then
         "optional_variant<" ++ (⟨(rendered0.data.drop 8).dropLast⟩ : String) ++ ">"
       else "optional<" ++ rendered0 ++ ">",
       some "\x7b\x7d")
    else
      match prop.type_expr with
      | .stringLiteral v =>
        (rendered0,
         match closedStringLiteralOwner m v with
         | some owner_enum =>
           (match closedStringEnumLiteralMember m owner_enum v with
            | some member_name => some (nmGet nm owner_enum ++ "::" ++ member_name)
            | none => none)
         | none => none)
      | _ => (rendered0, none)
  let diags :=
    if is_optional_bool prop && bool_default_needs_warning prop then
      diags.addBool (owner_struct ++ "." ++ prop.name ++
        ": optional bool defaults to false but docs suggest default true.")
    else diags
  let mn := property_member_name prop.name
  let diags :=
    if mn.2 then
      diags.addKeyword (owner_struct ++ "." ++ prop.name ++ ": renamed to `" ++
        mn.1 ++ "` due to C++ keyword collision.")
    else diags
  let comments := build_doc_lines prop.doc
  let comments :=
    if comments.isEmpty then ["Schema field: " ++ prop.name ++ "."] else comments
  let comments :=
    match inherited_from with
    | some parent =>
      let suffix := "(Inherited from [" ++ parent ++ "])"
      (match comments.getLast? with
       | some last => comments.dropLast ++ [last ++ " " ++ suffix]
       | none => [suffix])
    | none => comments
  (⟨shaped.1, mn.1, comments, shaped.2⟩, diags)

/-- Method `Generator.make_flatten_member` from the source. -/
def make_flatten_member (nm : List (String × String)) (diags : Diags)
    (owner_struct parent_name : String) : MemberDef × Diags :=
  let parent_cpp := nmGet nm parent_name
  let pf := sanitize_identifier (camel_to_snake parent_cpp) "base"
  let diags :=
    if pf.2 then
      diags.addKeyword (owner_struct ++ "." ++ parent_name ++
        ": renamed flatten field to `" ++ pf.1 ++ "` due to C++ keyword collision.")
    else diags
  (⟨"flatten<" ++ parent_cpp ++ ">", pf.1, [], none⟩, diags)

/-- Loop body of the single-inheritance phase of `collect_struct_members`:
a colliding local property suppresses the inherited member only when the
override is safe; otherwise a warning is recorded and the inherited member
is emitted as well. -/
def inheritedStep (m : CModel) (nm : List (String × String))
    (struct_name parent : String) (localAssoc : List (String × PropertyDef))
    (st : List MemberDef × Diags) (flat : FlattenedProperty) :
    List MemberDef × Diags :=
  let inherited_name := (property_member_name flat.prop.name).1
  match alookup localAssoc inherited_name with
  | some local_prop =>
    let so := is_safe_override flat.prop local_prop
    if so.1 then st
    else
      let d2 := st.2.addUnsafe (struct_name ++ "." ++ inherited_name ++
        ": inherited `" ++ flat.prop.name ++ "` from `" ++
        flat.declared_in ++ "` conflicts with local `" ++
        local_prop.name ++ "`; " ++ so.2 ++ ".")
      let mm := make_member m nm d2 struct_name flat (some parent)
      (st.1 ++ [mm.1], mm.2)
  | none =>
    let mm := make_member m nm st.2 struct_name flat (some parent)
    (st.1 ++ [mm.1], mm.2)

/-- Loop body of the multi-parent phase of `collect_struct_members`. -/
def flattenStep (m : CModel) (nm : List (String × String)) (struct_name : String)
    (st : List MemberDef × Diags) (parent : String) : List MemberDef × Diags :=
  if (m.structFind parent).isSome then
    let fm := make_flatten_member nm st.2 struct_name parent
    (st.1 ++ [fm.1], fm.2)
  else st

/-- Loop body of the own-properties phase of `collect_struct_members`. -/
def ownPropStep (m : CModel) (nm : List (String × String)) (struct_name : String)
    (st : List MemberDef × Diags) (prop : PropertyDef) : List MemberDef × Diags :=
  let mm := make_member m nm st.2 struct_name ⟨prop, struct_name⟩ none
  (st.1 ++ [mm.1], mm.2)

/-- Method `Generator.collect_struct_members` from the source.  The three
phases: inherited members of a defined single parent (with the
override-safety decision), `flatten` members for multiple parents, then the
struct's own properties. -/
def collect_struct_members (m : CModel) (nm : List (String × String))
    (struct_name : String) (diags : Diags) : List MemberDef × Diags :=
  match m.structFind struct_name with
  | none => ([], diags)
  | some struct_def =>
    let st0 : List MemberDef × Diags := ([], diags)
    let st1 :=
      match struct_def.parents with
      | [parent] =>
        if (m.structFind parent).isSome then
          let localAssoc := struct_def.properties.map
            (fun p => ((property_member_name p.name).1, p))
          (collectFlattened m parent).foldl
            (inheritedStep m nm struct_name parent localAssoc) st0
        else st0
      | [] => st0
      | _ => struct_def.parents.foldl (flattenStep m nm struct_name) st0
    struct_def.properties.foldl (ownPropStep m nm struct_name) st1

/-- Method `Generator.unique_member_name` from the source; `used_names` is
the list of base names already passed through the counter (its count of
`base_name` is the counter value), and the caller records the new base name
after the call, exactly as the Python `Counter` update does. -/
def unique_member_name (struct_name base_name : String)
    (used_names : List String) (diags : Diags) : String × Diags :=
  let index := used_names.count base_name
  if index = 0 then (base_name, diags)
  else
    let renamed := base_name ++ "_" ++ natRepr (index + 1)
    (renamed,
     diags.addCollision (struct_name ++ "." ++ base_name ++
       ": duplicate member name, renamed to `" ++ renamed ++ "`."))

/-- Member-emission loop of `Generator.emit_struct`: doc comments, collision
renaming, declaration line, and a blank separator between members. -/
def emitStructMembersLoop (struct_name : String) :
    List MemberDef → List String → List String → Diags → List String × Diags
  | [], lines, _, diags => (lines, diags)
  | member :: rest, lines, used_names, diags =>
    let lines := append_doc lines "    " member.comments
    let un := unique_member_name struct_name member.base_name used_names diags
    let decl := "    " ++ member.cxx_type ++ " " ++ un.1 ++
      (match member.default_value with
       | some dv => " = " ++ dv
       | none => "") ++ ";"
    let lines := lines ++ [decl]
    let lines := if rest.isEmpty then lines else lines ++ [""]
    emitStructMembersLoop struct_name rest lines (member.base_name :: used_names) un.2

/-- Method `Generator.emit_struct` from the source. -/
def emit_struct (m : CModel) (nm : List (String × String))
    (struct_name : String) (diags : Diags) : String × Diags :=
  match m.structFind struct_name with
  | none => ("", diags)
  | some struct_def =>
    let struct_cpp := nmIndex nm struct_name
    let lines := append_doc [] "" (build_doc_lines struct_def.doc)
    let lines := lines ++ ["struct " ++ struct_cpp ++ " \x7b"]
    let cm := collect_struct_members m nm struct_name diags
    let members := cm.1
    let lines := if members.isEmpty then lines ++ ["    // empty"] else lines
    let body := emitStructMembersLoop struct_name members lines [] cm.2
    (String.intercalate "\n" (body.1 ++ ["\x7d;"]), body.2)

/-- Integer-enum member loop of `Generator.emit_enum` (members named from
`value.name`, numeric initialisers, blank separators when either of two
consecutive members carries comments). -/
def emitIntEnumLoop : List EnumValueDef → Nat → List String → List String →
    List String
  | [], _, _, lines => lines
  | v :: rest, index, usedBases, lines =>
    let vc := build_doc_lines v.doc
    let lines := append_doc lines "    " vc
    let base := enum_member_upper_camel v.name ("Value" ++ natRepr (index + 1))
    let d := usedBases.count base
    let member := if d = 0 then base else base ++ natRepr (d + 1)
    let comma := if rest.isEmpty then "" else ","
    let lines := lines ++ ["    " ++ member ++ " = " ++ v.value.pyStr ++ comma]
    let nextHas :=
      match rest with
      | v2 :: _ => !(build_doc_lines v2.doc).isEmpty
      | [] => false
    let lines := if !rest.isEmpty && (!vc.isEmpty || nextHas) then lines ++ [""] else lines
    emitIntEnumLoop rest (index + 1) (base :: usedBases) lines

/-- Open-string-enum member loop of `Generator.emit_enum` (string-view
constants named from `value.name`). -/
def emitOpenStringEnumLoop : List EnumValueDef → Nat → List String → List String
  | [], _, lines => lines
  | v :: rest, index, lines =>
    let vc := build_doc_lines v.doc
    let lines := append_doc lines "    " vc
    let member := (sanitize_identifier (camel_to_snake v.name)
      ("value_" ++ natRepr index)).1
    let escaped := json_dumps_string v.value.pyStr
    let lines := lines ++
      ["    constexpr inline static std::string_view " ++ member ++ " = " ++
       escaped ++ ";"]
    let nextHas :=
      match rest with
      | v2 :: _ => !(build_doc_lines v2.doc).isEmpty
      | [] => false
    let lines := if !rest.isEmpty && (!vc.isEmpty || nextHas) then lines ++ [""] else lines
    emitOpenStringEnumLoop rest (index + 1) lines

/-- Closed-string-enum member loop of `Generator.emit_enum` (members named
from `value.value`, no initialisers). -/
def emitClosedStringEnumLoop : List EnumValueDef → Nat → List String →
    List String → List String
  | [], _, _, lines => lines
  | v :: rest, index, usedBases, lines =>
    let vc := build_doc_lines v.doc
    let lines := append_doc lines "    " vc
    let base := enum_member_upper_camel v.value.pyStr ("Value" ++ natRepr (index + 1))
    let d := usedBases.count base
    let member := if d = 0 then base else base ++ natRepr (d + 1)
    let comma := if rest.isEmpty then "" else ","
    let lines := lines ++ ["    " ++ member ++ comma]
    let nextHas :=
      match rest with
      | v2 :: _ => !(build_doc_lines v2.doc).isEmpty
      | [] => false
    let lines := if !rest.isEmpty && (!vc.isEmpty || nextHas) then lines ++ [""] else lines
    emitClosedStringEnumLoop rest (index + 1) (base :: usedBases) lines

/-- Method `Generator.emit_enum` from the source. -/
def emit_enum (m : CModel) (nm : List (String × String)) (enum_name : String) :
    String :=
  match m.enumFind enum_name with
  | none => ""
  | some enum_def =>
    let enum_cpp := nmIndex nm enum_name
    let base_name := enum_def.type_expr.dictName
    let comments := build_doc_lines enum_def.doc ++
      ["supportsCustomValues: " ++
       (if enum_def.supports_custom_values then "true" else "false")]
    let lines := append_doc [] "" comments
    if base_name == some "integer" || base_name == some "uinteger" then
      let baseStr := base_name.getD ""
      let underlying :=
        emit_enum_underlying baseStr enum_def.supports_custom_values
          (enum_def.values.filterMap (fun v =>
            match v.value with
            | .int i => some i
            | .str _ => none))
      let lines := lines ++ ["enum class " ++ enum_cpp ++ " : " ++ underlying ++ " \x7b"]
      let lines := emitIntEnumLoop enum_def.values 0 [] lines
      String.intercalate "\n" (lines ++ ["\x7d;"])
    else if base_name == some "string" then
      if enum_def.supports_custom_values then
        let lines := lines ++
          ["struct " ++ enum_cpp ++ " : std::string \x7b",
           "    using std::string::string;",
           "    using std::string::operator=;"]
        let lines := if enum_def.values.isEmpty then lines else lines ++ [""]
        let lines := emitOpenStringEnumLoop enum_def.values 0 lines
        String.intercalate "\n" (lines ++ ["\x7d;"])
      else
        let max_value : Int := max (enum_def.values.length - 1 : Int) 0
        let underlying := smallest_unsigned_type max_value
        let lines := lines ++ ["enum class " ++ enum_cpp ++ " : " ++ underlying ++ " \x7b"]
        let lines := emitClosedStringEnumLoop enum_def.values 0 [] lines
        String.intercalate "\n" (lines ++ ["\x7d;"])
    else
      String.intercalate "\n" (lines ++
        ["// Unsupported enum base type: " ++ base_name.getD "None"])

/-- Method `Generator.emit_alias` from the source (`render_type` is called
without a current struct). -/
def emit_alias (m : CModel) (nm : List (String × String)) (alias_name : String) :
    String :=
  match m.aliasFind alias_name with
  | none => ""
  | some alias_def =>
    let alias_cpp := nmIndex nm alias_name
    let alias_type := render_type m nm alias_def.type_expr none
    String.intercalate "\n"
      (append_doc [] "" (build_doc_lines alias_def.doc) ++
       ["using " ++ alias_cpp ++ " = " ++ alias_type ++ ";"])

/-- Function `emit_extra_param_structs` from the source. -/
def emit_extra_param_structs (extra_params : List ExtraParamDef)
    (nm : List (String × String)) : List String :=
  (sortByMethod ExtraParamDef.method extra_params).map
    (fun extra => "struct " ++ nmIndex nm extra.name ++ " \x7b \x7d;")

/-- Function `render_method_params` from the source. -/
def render_method_params (m : CModel) (nm : List (String × String))
    (extraByMethod : List (String × ExtraParamDef)) (method : String)
    (params : Option TypeExpr) : String :=
  match params with
  | none =>
    (match alookup extraByMethod method with
     | none => "LSPEmpty"
     | some extra => nmIndex nm extra.name)
  | some p => render_type m nm p none

/-- Entry rows of `emit_xmacro`: `(params, optional result, method)`. -/
abbrev TraitEntry := String × Option String × String

/-- Row lines of `emit_xmacro` (line continuations on all but the last). -/
def xmacroLines : List TraitEntry → List String
  | [] => []
  | e :: rest =>
    let payload :=
      match e.2.1 with
      | none => "X((" ++ e.1 ++ "), " ++ e.2.2 ++ ")"
      | some result => "X((" ++ e.1 ++ "), (" ++ result ++ "), " ++ e.2.2 ++ ")"
    ("    " ++ payload ++ (if rest.isEmpty then "" else " \\")) :: xmacroLines rest

/-- Function `emit_xmacro` from the source. -/
def emit_xmacro (name : String) (entries : List TraitEntry) : List String :=
  ("#define " ++ name ++ "(X) \\") :: xmacroLines entries

/-- Function `emit_method_traits` from the source.  The canonical model's
request and notification lists are already sorted by method, which is the
order `build_trait_entries` establishes with `sorted_by_method`. -/
def emit_method_traits (m : CModel) (nm : List (String × String))
    (extra_params : List ExtraParamDef) : String :=
  let extraByMethod := extra_params.map (fun e => (e.method, e))
  let reqEntries : List TraitEntry := m.requests.map (fun item =>
    (render_method_params m nm extraByMethod item.method item.params,
     some (match item.result with
           | some r => render_type m nm r none
           | none => "null"),
     json_dumps_string item.method))
  let noteEntries : List TraitEntry := m.notifications.map (fun item =>
    (render_method_params m nm extraByMethod item.method item.params,
     none,
     json_dumps_string item.method))
  let lines := emit_xmacro "LSP_REQUEST_TRAITS_XMACRO" reqEntries
  let lines := lines ++ [""] ++ emit_xmacro "LSP_NOTIFICATION_TRAITS_XMACRO" noteEntries
  let lines := lines ++
    ["",
     "#define LSP_TRAITS_TYPE(...) __VA_ARGS__",
     "",
     "#define LSP_REQUEST_TRAITS_DECLARE(PARAMS, RESULT, METHOD) \\",
     "template <> \\",
     "struct RequestTraits<LSP_TRAITS_TYPE PARAMS> \x7b \\",
     "    using Result = LSP_TRAITS_TYPE RESULT; \\",
     "    constexpr inline static std::string_view method = METHOD; \\",
     "\x7d;",
     "",
     "LSP_REQUEST_TRAITS_XMACRO(LSP_REQUEST_TRAITS_DECLARE)",
     "",
     "#undef LSP_REQUEST_TRAITS_DECLARE",
     "",
     "#define LSP_NOTIFICATION_TRAITS_DECLARE(PARAMS, METHOD) \\",
     "template <> \\",
     "struct NotificationTraits<LSP_TRAITS_TYPE PARAMS> \x7b \\",
     "    constexpr inline static std::string_view method = METHOD; \\",
     "\x7d;",
     "",
     "LSP_NOTIFICATION_TRAITS_XMACRO(LSP_NOTIFICATION_TRAITS_DECLARE)",
     "",
     "#undef LSP_NOTIFICATION_TRAITS_DECLARE",
     "#undef LSP_TRAITS_TYPE"]
  String.intercalate "\n" lines

/-- Block emission loop of `generate_protocol_header` over the node order,
threading the diagnostics collector (struct emission appends warnings). -/
def emitBlocks (m : CModel) (nm : List (String × String)) :
    List Node → Diags → List String × Diags
  | [], diags => ([], diags)
  | node :: rest, diags =>
    let eb :=
      if node.1 == "A" then (emit_alias m nm node.2, diags)
      else if node.1 == "S" then emit_struct m nm node.2 diags
      else (emit_enum m nm node.2, diags)
    let tl := emitBlocks m nm rest eb.2
    (eb.1 :: tl.1, tl.2)

/-- Body assembly loop of `generate_protocol_header`: skip empty blocks,
separate the others by a blank line (the index in the original block list
decides whether a separator is due), right-stripping each block. -/
def assembleBlocks : List String → Nat → List String
  | [], _ => []
  | block :: rest, idx =>
    if block.isEmpty then assembleBlocks rest (idx + 1)
    else
      (if idx > 0 then ["", pyRstrip block] else [pyRstrip block]) ++
      assembleBlocks rest (idx + 1)

/-- Function `generate_protocol_header` from the source, reduced to its
pure core: the text written to the output file and the final diagnostics
collector (the function's summary dictionary carries exactly these
diagnostics lists and the input counts).  The flatten memo cache is
treated as transparent here, which is exact whenever single-parent
chains are acyclic; `generate_protocol_header_ordered` models the cache
and the `struct_names` set-iteration order explicitly and is the faithful
model on cyclic-parent schemas. -/
def generate_protocol_header (s : Schema) : String × Diags :=
  let model := parse_schema s
  let m := canonModel model
  let extra_params := collect_extra_params m.requests m.notifications
  let definition_names :=
    m.structNames ++ m.enumNames ++ m.aliasNames ++ extra_params.map (·.name)
  let nm := build_name_map definition_names
  let node_order := build_node_order m
  let eb := emitBlocks m nm node_order Diags.empty
  let body_blocks := eb.1 ++ emit_extra_param_structs extra_params nm ++
    [emit_method_traits m nm extra_params]
  let lines :=
    ["#pragma once",
     "",
     "#include \"language/ts.h\"",
     "",
     "// Generated by scripts/lsp_codegen.py. DO NOT EDIT.",
     "",
     "namespace language::protocol \x7b",
     ""] ++
    assembleBlocks body_blocks 0 ++
    ["", "\x7d  // namespace language::protocol", ""]
  let content := String.intercalate "\n" lines
  (pyRstrip content ++ "\n", eb.2)

/-- Output file text of a generator run. -/
def generateHeaderContent (s : Schema) : String := (generate_protocol_header s).1

/-- Diagnostics collector at the end of a generator run. -/
def generateDiags (s : Schema) : Diags := (generate_protocol_header s).2

/-- Word-boundary rule exactly as the specification words it for
`camel_to_snake` (claim C8): an underscore before every uppercase letter
that is preceded by a lowercase letter or followed by a lowercase letter,
with no exemption for position 0; then lowercase all. -/
def camelSnakeSpecRuleAux : Option Char → List Char → List Char
  | _, [] => []
  | prev, c :: rest =>
    let tail := camelSnakeSpecRuleAux (some c) rest
    if c.isUpper then
      let boundary :=
        (match prev with
         | some p => p.isLower
         | none => false) ||
        (match rest with
         | n :: _ => n.isLower
         | [] => false)
      (if boundary then ['_', c.toLower] else [c.toLower]) ++ tail
    else c :: tail

/-- Entry point of the claim-C8 rule as the specification words it. -/
def camel_to_snake_spec_rule (name : String) : String :=
  ⟨camelSnakeSpecRuleAux none name.data⟩

/-- Position-indexed statement of the amended C8 rule: an underscore before
every uppercase letter at a position `i > 0` whose left neighbour is
lowercase or whose right neighbour is lowercase; all letters lowercased. -/
def camel_to_snake_expected (name : String) : String :=
  ⟨((List.range name.data.length).map (fun i =>
      let c := name.data.getD i '0'
      if c.isUpper then
        if 0 < i && ((name.data.getD (i - 1) '0').isLower ||
                     (name.data.getD (i + 1) '0').isLower)
        then ['_', c.toLower] else [c.toLower]
      else [c])).flatten⟩

/-- Per-index reading of `camel_to_snake`'s loop body, generalised over the
character preceding the current window (used to bridge the loop to the
position-indexed rule). -/
def snakeIdx (prev : Option Char) (l : List Char) (i : Nat) : List Char :=
  let c := l.getD i '0'
  if c.isUpper then
    if (match (if i = 0 then prev else some (l.getD (i - 1) '0')) with
        | some p => p.isLower || (l.getD (i + 1) '0').isLower
        | none => false)
    then ['_', c.toLower] else [c.toLower]
  else [c]

/-- First-seen deduplication as the specification words it: keep each
rendering's first occurrence, dropping later repeats. -/
def dedupFirstSpec : List String → List String
  | [] => []
  | x :: xs => x :: dedupFirstSpec (xs.filter (fun y => y ≠ x))
termination_by l => l.length
decreasing_by
  exact Nat.lt_succ_of_le (List.length_filter_le _ _)

/-- Candidate fixed-width sizes of the narrowing (claim C7). -/
def intWidths : List Nat := [8, 16, 32, 64]

/-- Name of the signed fixed-width type of a given bit width. -/
def signedTypeName (bits : Nat) : String := "std::int" ++ natRepr bits ++ "_t"

/-- Name of the unsigned fixed-width type of a given bit width. -/
def unsignedTypeName (bits : Nat) : String := "std::uint" ++ natRepr bits ++ "_t"

/-- An integer fits a signed two's-complement width. -/
def fitsSigned (bits : Nat) (v : Int) : Prop :=
  -(2 ^ (bits - 1)) ≤ v ∧ v ≤ 2 ^ (bits - 1) - 1

/-- An integer fits an unsigned width. -/
def fitsUnsigned (bits : Nat) (v : Int) : Prop :=
  0 ≤ v ∧ v ≤ 2 ^ bits - 1

/-- Concrete schema for the C10 witness: a struct whose single parent is
not defined anywhere in the schema. -/
def c10Schema : Schema :=
  ⟨[⟨"X", [TypeExpr.reference "Missing"], [],
     [⟨"p", TypeExpr.base "integer", false, DocInfo.empty⟩], DocInfo.empty⟩],
   [], [], [], []⟩

/-- Canonical model of the C10 witness schema. -/
def c10Model : CModel := canonModel (parse_schema c10Schema)

/-- Collision-renaming pass over the member base names, as `emit_struct`
applies it via `unique_member_name`: the first occurrence of a base name
keeps it, the k-th repeat gains the suffix `_k+1`. -/
def assignedNamesAux : List String → List String → List String
  | [], _ => []
  | b :: rest, used =>
    (if used.count b = 0 then b else b ++ "_" ++ natRepr (used.count b + 1)) ::
      assignedNamesAux rest (b :: used)

/-- Names after the collision-renaming pass. -/
def assignedNames (base_names : List String) : List String :=
  assignedNamesAux base_names []

/-- Concrete schema for the C1 counterexample: the parent declares a
required `id: integer`, the child redeclares `id: string` (an unsafe
override). -/
def c1Schema : Schema :=
  ⟨[⟨"Parent", [], [], [⟨"id", TypeExpr.base "integer", false, DocInfo.empty⟩], DocInfo.empty⟩,
    ⟨"Child", [TypeExpr.reference "Parent"], [],
     [⟨"id", TypeExpr.base "string", false, DocInfo.empty⟩], DocInfo.empty⟩],
   [], [], [], []⟩

/-- Canonical model of the C1 schema. -/
def c1Model : CModel := canonModel (parse_schema c1Schema)

/-- Name map the generator builds for the C1 schema. -/
def c1Nm : List (String × String) := build_name_map ["Child", "Parent"]

/-- The inherited `id: integer` property of the C1 parent. -/
def c1Flat : FlattenedProperty :=
  ⟨⟨"id", TypeExpr.base "integer", false, DocInfo.empty⟩, "Parent"⟩

/-- The local `id: string` property of the C1 child. -/
def c1Local : PropertyDef := ⟨"id", TypeExpr.base "string", false, DocInfo.empty⟩

/-- The parsed C1 child struct. -/
def c1ChildSd : StructDef :=
  ⟨"Child", ["Parent"], [c1Local], DocInfo.empty⟩

/-- Concrete schema for the C3 counterexample: two structs whose property
types reference each other, a dependency-graph cycle. -/
def c3Schema : Schema :=
  ⟨[⟨"A", [], [], [⟨"b", TypeExpr.reference "B", false, DocInfo.empty⟩], DocInfo.empty⟩,
    ⟨"B", [], [], [⟨"a", TypeExpr.reference "A", false, DocInfo.empty⟩], DocInfo.empty⟩],
   [], [], [], []⟩

/-- Dependency function of the two-node cycle used by the C3 witness. -/
def c3Deps : Node → List Node :=
  fun n => if n = ("S", "A") then [("S", "B")] else [("S", "A")]

/-- Numeric value of a decimal digit character. -/
def charVal (c : Char) : Nat := c.toNat - 48

/-- Value of a decimal digit string (used to invert `natRepr`). -/
def reprVal (l : List Char) : Nat := l.foldl (fun a c => 10 * a + charVal c) 0

/-- Cyclic-inheritance schema for the flattening-termination witness:
`A extends B` and `B extends A`. -/
def c9Schema : Schema :=
  ⟨[⟨"A", [TypeExpr.reference "B"], [],
     [⟨"pa", TypeExpr.base "string", false, DocInfo.empty⟩], DocInfo.empty⟩,
    ⟨"B", [TypeExpr.reference "A"], [],
     [⟨"pb", TypeExpr.base "string", false, DocInfo.empty⟩], DocInfo.empty⟩],
   [], [], [], []⟩

/-- Canonical model of the cyclic schema. -/
def c9Model : CModel := canonModel (parse_schema c9Schema)

/-- Flattening of `A` in the cyclic model (finite: the stack cuts the
cycle). -/
def c9FlatA : List FlattenedProperty := collectFlattened c9Model "A"

/-- A memo cache holding that flattening. -/
def c9Cache : List (String × List FlattenedProperty) := [("A", c9FlatA)]

/-- The part of `generate_protocol_header` downstream of model
canonicalisation, as a function of the canonical model (the source
function factors through it definitionally). -/
def headerOfCModel (m : CModel) : String × Diags :=
  let extra_params := collect_extra_params m.requests m.notifications
  let definition_names :=
    m.structNames ++ m.enumNames ++ m.aliasNames ++ extra_params.map (·.name)
  let nm := build_name_map definition_names
  let node_order := build_node_order m
  let eb := emitBlocks m nm node_order Diags.empty
  let body_blocks := eb.1 ++ emit_extra_param_structs extra_params nm ++
    [emit_method_traits m nm extra_params]
  let lines :=
    ["#pragma once",
     "",
     "#include \"language/ts.h\"",
     "",
     "// Generated by scripts/lsp_codegen.py. DO NOT EDIT.",
     "",
     "namespace language::protocol \x7b",
     ""] ++
    assembleBlocks body_blocks 0 ++
    ["", "\x7d  // namespace language::protocol", ""]
  let content := String.intercalate "\n" lines
  (pyRstrip content ++ "\n", eb.2)

/-- First structure of the permutation witness schema. -/
def c6Struct1 : RawStructure :=
  ⟨"S1", [], [], [⟨"a", TypeExpr.base "string", false, DocInfo.empty⟩], DocInfo.empty⟩

/-- Second structure of the permutation witness schema. -/
def c6Struct2 : RawStructure :=
  ⟨"S2", [TypeExpr.reference "S1"], [],
   [⟨"b", TypeExpr.base "integer", false, DocInfo.empty⟩], DocInfo.empty⟩

/-- Two-structure schema in one entry order. -/
def c6SchemaA : Schema := ⟨[c6Struct1, c6Struct2], [], [], [], []⟩

/-- The same schema with the structure entries permuted. -/
def c6SchemaB : Schema := ⟨[c6Struct2, c6Struct1], [], [], [], []⟩

/-- One Python call `collect_flattened_properties(name)` against an
explicit memo-cache state: the returned list.  Models the emission-phase
reads of the run-wide cache (after the dependency pass every defined
structure is cached, so the call is a pure cache hit and writes
nothing). -/
def flattenRead (m : CModel) (cache : List (String × List FlattenedProperty))
    (name : String) : List FlattenedProperty :=
  (collect_flattened_cached m (flattenFuel m) cache name []).1

/-- Method `Generator.struct_dependencies` as a function of the
flattening list it reads (the method consumes only the flattening of its
own struct); `struct_dependencies` is this applied to the cacheless
value. -/
def struct_dependencies_with (m : CModel) (flatList : List FlattenedProperty)
    (struct_name : String) : List Node :=
  let raw :=
    match m.structFind struct_name with
    | none => []
    | some struct_def =>
      (if struct_def.parents.length > 1 then
         struct_def.parents.filterMap (fun parent =>
           if (m.structFind parent).isSome then some (("S", parent) : Node) else none)
       else []) ++
      (flatList.map (fun (flat : FlattenedProperty) =>
         walkTypeRefs m flat.declared_in flat.prop.type_expr)).flatten
  (sortNodes raw.dedup).filter (fun d => d ≠ ("S", struct_name))

/-- Struct loop of `Generator.build_node_dependencies`, iterating the
`struct_names` set in the given `order` and threading the run-wide
flatten memo cache: each iteration performs one cached flattening call
for its struct and computes that struct's dependency set from the
returned list.  Cache entries are never overwritten, so a later read of
any key returns the value stored by its earliest write, exactly as in
the Python run. -/
def depsLoop (m : CModel) :
    List String → List (String × List FlattenedProperty) →
    List (String × List Node) →
    List (String × List Node) × List (String × List FlattenedProperty)
  | [], cache, acc => (acc, cache)
  | n :: rest, cache, acc =>
    let r := collect_flattened_cached m (flattenFuel m) cache n []
    depsLoop m rest r.2 (acc ++ [(n, struct_dependencies_with m r.1 n)])

/-- Node-dependency function built from the loop's per-struct results
(the `deps` dict of `build_node_dependencies`; a struct missing from the
iteration keeps its initial empty set). -/
def nodeDepsOrdered (m : CModel) (sdeps : List (String × List Node))
    (node : Node) : List Node :=
  let raw :=
    if node.1 == "S" then (alookup sdeps node.2).getD []
    else if node.1 == "A" then
      match m.aliasFind node.2 with
      | some alias_def =>
        if node.2 ∈ RECURSIVE_ALIASES then []
        else
          (sortNodes (walkTypeRefs m node.2 alias_def.type_expr).dedup).filter
            (fun d => d ≠ node)
      | none => []
    else []
  raw.filter (fun dep => dep ∈ buildNodes m)

/-- Method `Generator.collect_struct_members` as a function of the
flattening source (`flat parent` is the method's
`collect_flattened_properties(parent)` call against the run-wide
cache). -/
def collect_struct_members_with (m : CModel) (nm : List (String × String))
    (flat : String → List FlattenedProperty)
    (struct_name : String) (diags : Diags) : List MemberDef × Diags :=
  match m.structFind struct_name with
  | none => ([], diags)
  | some struct_def =>
    let st0 : List MemberDef × Diags := ([], diags)
    let st1 :=
      match struct_def.parents with
      | [parent] =>
        if (m.structFind parent).isSome then
          let localAssoc := struct_def.properties.map
            (fun p => ((property_member_name p.name).1, p))
          (flat parent).foldl
            (inheritedStep m nm struct_name parent localAssoc) st0
        else st0
      | [] => st0
      | _ => struct_def.parents.foldl (flattenStep m nm struct_name) st0
    struct_def.properties.foldl (ownPropStep m nm struct_name) st1

/-- Method `Generator.emit_struct` over a given flattening source. -/
def emit_struct_with (m : CModel) (nm : List (String × String))
    (flat : String → List FlattenedProperty)
    (struct_name : String) (diags : Diags) : String × Diags :=
  match m.structFind struct_name with
  | none => ("", diags)
  | some struct_def =>
    let struct_cpp := nmIndex nm struct_name
    let lines := append_doc [] "" (build_doc_lines struct_def.doc)
    let lines := lines ++ ["struct " ++ struct_cpp ++ " \x7b"]
    let cm := collect_struct_members_with m nm flat struct_name diags
    let members := cm.1
    let lines := if members.isEmpty then lines ++ ["    // empty"] else lines
    let body := emitStructMembersLoop struct_name members lines [] cm.2
    (String.intercalate "\n" (body.1 ++ ["\x7d;"]), body.2)

/-- Emission loop of `generate_protocol_header` over a given flattening
source. -/
def emitBlocks_with (m : CModel) (nm : List (String × String))
    (flat : String → List FlattenedProperty) :
    List Node → Diags → List String × Diags
  | [], diags => ([], diags)
  | node :: rest, diags =>
    let eb :=
      if node.1 == "A" then (emit_alias m nm node.2, diags)
      else if node.1 == "S" then emit_struct_with m nm flat node.2 diags
      else (emit_enum m nm node.2, diags)
    let tl := emitBlocks_with m nm flat rest eb.2
    (eb.1 :: tl.1, tl.2)

/-- The generator pipeline downstream of canonicalisation with the
flatten memo cache made explicit: the dependency pass populates the
cache while iterating the `struct_names` set in `order` (Python set
iteration order is a hidden per-process parameter of the real run), and
the emission phase reads the populated cache.  On acyclic parent chains
the cache is transparent and this equals `headerOfCModel` for every
`order`; on cyclic chains the output genuinely depends on `order`. -/
def headerOrderedOfCModel (m : CModel) (order : List String) : String × Diags :=
  let dl := depsLoop m order [] []
  let extra_params := collect_extra_params m.requests m.notifications
  let definition_names :=
    m.structNames ++ m.enumNames ++ m.aliasNames ++ extra_params.map (·.name)
  let nm := build_name_map definition_names
  let node_order := topological_order (buildNodes m) (nodeDepsOrdered m dl.1)
  let eb := emitBlocks_with m nm (flattenRead m dl.2) node_order Diags.empty
  let body_blocks := eb.1 ++ emit_extra_param_structs extra_params nm ++
    [emit_method_traits m nm extra_params]
  let lines :=
    ["#pragma once",
     "",
     "#include \"language/ts.h\"",
     "",
     "// Generated by scripts/lsp_codegen.py. DO NOT EDIT.",
     "",
     "namespace language::protocol \x7b",
     ""] ++
    assembleBlocks body_blocks 0 ++
    ["", "\x7d  // namespace language::protocol", ""]
  let content := String.intercalate "\n" lines
  (pyRstrip content ++ "\n", eb.2)

/-- Function `generate_protocol_header` with the flatten memo cache and
the `struct_names` set-iteration order made explicit. -/
def generate_protocol_header_ordered (s : Schema) (order : List String) :
    String × Diags :=
  headerOrderedOfCModel (canonModel (parse_schema s)) order

/-- Correct-cache invariant: every cached entry equals the cacheless
flattening of its key. -/
def FlatCacheOK (m : CModel)
    (cache : List (String × List FlattenedProperty)) : Prop :=
  ∀ key v, alookup cache key = some v →
    v = collect_flattened_properties m (flattenFuel m) key []

/-- Cyclic-parent schema on which the emitted header depends on the
`struct_names` iteration order: `A extends B`, `B extends C`,
`C extends A`. -/
def c6CycSchema : Schema :=
  ⟨[⟨"A", [TypeExpr.reference "B"], [],
     [⟨"pa", TypeExpr.base "string", false, DocInfo.empty⟩], DocInfo.empty⟩,
    ⟨"B", [TypeExpr.reference "C"], [],
     [⟨"pb", TypeExpr.base "string", false, DocInfo.empty⟩], DocInfo.empty⟩,
    ⟨"C", [TypeExpr.reference "A"], [],
     [⟨"pc", TypeExpr.base "string", false, DocInfo.empty⟩], DocInfo.empty⟩],
   [], [], [], []⟩

/-! Theorems about the embedded generator, one per specification claim,
preceded by general lemmas about the sorting and folding helpers. -/

theorem insertSorted_perm {α : Type} (le : α → α → Bool) (x : α) (l : List α) :
    (insertSorted le x l).Perm (x :: l) := by
  induction l with
  | nil => simp [insertSorted]
  | cons y ys ih =>
    by_cases h : (le y x && !le x y) = true
    · simpa [insertSorted, h] using (ih.cons y).trans (List.Perm.swap x y ys)
    · simp [insertSorted, h]

theorem stableSortBy_perm {α : Type} (le : α → α → Bool) (l : List α) :
    (stableSortBy le l).Perm l := by
  induction l with
  | nil => simp [stableSortBy]
  | cons x xs ih =>
    exact (insertSorted_perm le x (stableSortBy le xs)).trans (ih.cons x)

theorem mem_insertSorted {α : Type} (le : α → α → Bool) (x a : α) (l : List α) :
    a ∈ insertSorted le x l ↔ a = x ∨ a ∈ l := by
  have := (insertSorted_perm le x l).mem_iff (a := a)
  simpa using this

theorem insertSorted_pairwise {α : Type} (le : α → α → Bool)
    (htot : ∀ a b, (le a b || le b a) = true)
    (htrans : ∀ a b c, le a b = true → le b c = true → le a c = true)
    (x : α) (l : List α) (hl : l.Pairwise (fun a b => le a b = true)) :
    (insertSorted le x l).Pairwise (fun a b => le a b = true) := by
  induction l with
  | nil => simp [insertSorted]
  | cons y ys ih =>
    rcases List.pairwise_cons.mp hl with ⟨hy, hys⟩
    by_cases h : (le y x && !le x y) = true
    · have hyx : le y x = true := ((Bool.and_eq_true _ _).mp h).1
      rw [insertSorted, if_pos h]
      refine List.pairwise_cons.mpr ⟨?_, ih hys⟩
      intro a ha
      rcases (mem_insertSorted le x a ys).mp ha with rfl | ha
      · exact hyx
      · exact hy a ha
    · have hxy : le x y = true := by
        rcases (Bool.or_eq_true _ _).mp (htot x y) with h' | h'
        · exact h'
        · by_contra hxy
          exact h (by simp [h', Bool.not_eq_true _ ▸ hxy, hxy])
      rw [insertSorted, if_neg h]
      refine List.pairwise_cons.mpr ⟨?_, hl⟩
      intro a ha
      rcases List.mem_cons.mp ha with rfl | ha
      · exact hxy
      · exact htrans x y a hxy (hy a ha)

theorem stableSortBy_pairwise {α : Type} (le : α → α → Bool)
    (htot : ∀ a b, (le a b || le b a) = true)
    (htrans : ∀ a b c, le a b = true → le b c = true → le a c = true)
    (l : List α) :
    (stableSortBy le l).Pairwise (fun a b => le a b = true) := by
  induction l with
  | nil => simp [stableSortBy]
  | cons x xs ih => exact insertSorted_pairwise le htot htrans x _ ih

theorem charToNat_inj {a b : Char} (h : a.toNat = b.toNat) : a = b := by
  simpa [Char.ext_iff, UInt32.ext_iff] using h

theorem charListLe_total (a b : List Char) :
    (charListLe a b || charListLe b a) = true := by
  induction a generalizing b with
  | nil => cases b <;> simp [charListLe]
  | cons c cs ih =>
    cases b with
    | nil => simp [charListLe]
    | cons d ds =>
      by_cases h1 : c.toNat < d.toNat
      · simp [charListLe, h1]
      · by_cases h2 : d.toNat < c.toNat
        · simp [charListLe, h1, h2]
        · simpa [charListLe, h1, h2] using ih ds

theorem charListLe_trans (a b c : List Char) (h1 : charListLe a b = true)
    (h2 : charListLe b c = true) : charListLe a c = true := by
  induction a generalizing b c with
  | nil => simp [charListLe]
  | cons x xs ih =>
    cases b with
    | nil => simp [charListLe] at h1
    | cons y ys =>
      cases c with
      | nil => simp [charListLe] at h2
      | cons z zs =>
        by_cases hxy : x.toNat < y.toNat
        · by_cases hyz : y.toNat < z.toNat
          · simp [charListLe, show x.toNat < z.toNat by omega]
          · by_cases hzy : z.toNat < y.toNat
            · simp [charListLe, hyz, hzy] at h2
            · simp [charListLe, show x.toNat < z.toNat by omega]
        · by_cases hyx : y.toNat < x.toNat
          · simp [charListLe, hxy, hyx] at h1
          · by_cases hyz : y.toNat < z.toNat
            · simp [charListLe, show x.toNat < z.toNat by omega]
            · by_cases hzy : z.toNat < y.toNat
              · simp [charListLe, hyz, hzy] at h2
              · have hxs : charListLe xs ys = true := by
                  simpa [charListLe, hxy, hyx] using h1
                have hys : charListLe ys zs = true := by
                  simpa [charListLe, hyz, hzy] using h2
                have hxz : ¬ x.toNat < z.toNat := by omega
                have hzx : ¬ z.toNat < x.toNat := by omega
                simpa [charListLe, hxz, hzx] using ih ys zs hxs hys

theorem charListLe_antisymm (a b : List Char) (h1 : charListLe a b = true)
    (h2 : charListLe b a = true) : a = b := by
  induction a generalizing b with
  | nil =>
    cases b with
    | nil => rfl
    | cons d ds => simp [charListLe] at h2
  | cons c cs ih =>
    cases b with
    | nil => simp [charListLe] at h1
    | cons d ds =>
      by_cases hcd : c.toNat < d.toNat
      · simp [charListLe, hcd, show ¬ d.toNat < c.toNat by omega] at h2
      · by_cases hdc : d.toNat < c.toNat
        · simp [charListLe, hcd, hdc] at h1
        · have hcs : charListLe cs ds = true := by simpa [charListLe, hcd, hdc] using h1
          have hds : charListLe ds cs = true := by simpa [charListLe, hcd, hdc] using h2
          have : c = d := charToNat_inj (by omega)
          rw [this, ih ds hcs hds]

theorem strLe_total (a b : String) : (strLe a b || strLe b a) = true :=
  charListLe_total a.data b.data

theorem strLe_trans (a b c : String) (h1 : strLe a b = true)
    (h2 : strLe b c = true) : strLe a c = true :=
  charListLe_trans a.data b.data c.data h1 h2

theorem stringDataEq {a b : String} (h : a.data = b.data) : a = b := by
  cases a; cases b; exact congrArg String.mk h

theorem strLe_antisymm (a b : String) (h1 : strLe a b = true)
    (h2 : strLe b a = true) : a = b :=
  stringDataEq (charListLe_antisymm a.data b.data h1 h2)

theorem stableSortBy_congr_perm {α : Type} (le : α → α → Bool)
    (htot : ∀ a b, (le a b || le b a) = true)
    (htrans : ∀ a b c, le a b = true → le b c = true → le a c = true)
    (hanti : ∀ a b, le a b = true → le b a = true → a = b)
    {l₁ l₂ : List α} (h : l₁.Perm l₂) :
    stableSortBy le l₁ = stableSortBy le l₂ := by
  haveI : IsAntisymm α (fun a b => le a b = true) := ⟨hanti⟩
  exact List.eq_of_perm_of_sorted
    ((stableSortBy_perm le l₁).trans (h.trans (stableSortBy_perm le l₂).symm))
    (stableSortBy_pairwise le htot htrans l₁)
    (stableSortBy_pairwise le htot htrans l₂)

theorem charListLt_iff (a b : List Char) :
    charListLt a b = true ↔ (charListLe a b = true ∧ a ≠ b) := by
  induction a generalizing b with
  | nil =>
    cases b with
    | nil => simp [charListLt, charListLe]
    | cons d ds => simp [charListLt, charListLe]
  | cons c cs ih =>
    cases b with
    | nil => simp [charListLt, charListLe]
    | cons d ds =>
      by_cases hcd : c.toNat < d.toNat
      · have : c ≠ d := fun h => absurd (congrArg Char.toNat h) (by omega)
        simp [charListLt, charListLe, hcd, this]
      · by_cases hdc : d.toNat < c.toNat
        · simp [charListLt, charListLe, hcd, hdc]
        · have hce : c = d := charToNat_inj (by omega)
          subst hce
          simpa [charListLt, charListLe, hcd, hdc] using ih ds

theorem strLt_iff (a b : String) :
    strLt a b = true ↔ (strLe a b = true ∧ a ≠ b) := by
  have := charListLt_iff a.data b.data
  constructor
  · intro h
    rcases this.mp h with ⟨h1, h2⟩
    exact ⟨h1, fun he => h2 (by rw [he])⟩
  · intro h
    refine this.mpr ⟨h.1, fun he => h.2 (stringDataEq he)⟩

theorem nodeLe_total (a b : Node) : (nodeLe a b || nodeLe b a) = true := by
  by_cases h : a.1 = b.1
  · have hlt : strLt a.1 b.1 = false := by
      by_contra hc
      rcases (strLt_iff a.1 b.1).mp (by revert hc; cases strLt a.1 b.1 <;> simp) with ⟨_, hne⟩
      exact hne h
    have hlt2 : strLt b.1 a.1 = false := by
      by_contra hc
      rcases (strLt_iff b.1 a.1).mp (by revert hc; cases strLt b.1 a.1 <;> simp) with ⟨_, hne⟩
      exact hne h.symm
    have := strLe_total a.2 b.2
    rcases (Bool.or_eq_true _ _).mp this with h2 | h2 <;>
      simp [nodeLe, hlt, hlt2, h, h2]
  · rcases (Bool.or_eq_true _ _).mp (strLe_total a.1 b.1) with h1 | h1
    · have : strLt a.1 b.1 = true := (strLt_iff a.1 b.1).mpr ⟨h1, h⟩
      simp [nodeLe, this]
    · have : strLt b.1 a.1 = true := (strLt_iff b.1 a.1).mpr ⟨h1, fun he => h he.symm⟩
      simp [nodeLe, this]

theorem nodeLe_trans (a b c : Node) (h1 : nodeLe a b = true)
    (h2 : nodeLe b c = true) : nodeLe a c = true := by
  rcases (Bool.or_eq_true _ _).mp h1 with hab | hab <;>
    rcases (Bool.or_eq_true _ _).mp h2 with hbc | hbc
  · rcases (strLt_iff _ _).mp hab with ⟨le1, ne1⟩
    rcases (strLt_iff _ _).mp hbc with ⟨le2, ne2⟩
    have le3 := strLe_trans _ _ _ le1 le2
    by_cases he : a.1 = c.1
    · have : b.1 = c.1 := strLe_antisymm _ _ le2 (he ▸ le1)
      exact absurd this ne2
    · simp [nodeLe, (strLt_iff a.1 c.1).mpr ⟨le3, he⟩]
  · rcases (Bool.and_eq_true _ _).mp hbc with ⟨hbeq, _⟩
    have hbc' : b.1 = c.1 := by simpa using hbeq
    rcases (strLt_iff _ _).mp hab with ⟨le1, ne1⟩
    simp [nodeLe, (strLt_iff a.1 c.1).mpr ⟨hbc' ▸ le1, hbc' ▸ ne1⟩]
  · rcases (Bool.and_eq_true _ _).mp hab with ⟨haeq, _⟩
    have hab' : a.1 = b.1 := by simpa using haeq
    rcases (strLt_iff _ _).mp hbc with ⟨le2, ne2⟩
    simp [nodeLe, (strLt_iff a.1 c.1).mpr ⟨hab' ▸ le2, hab' ▸ ne2⟩]
  · rcases (Bool.and_eq_true _ _).mp hab with ⟨haeq, hale⟩
    rcases (Bool.and_eq_true _ _).mp hbc with ⟨hbeq, hble⟩
    have hab' : a.1 = b.1 := by simpa using haeq
    have hbc' : b.1 = c.1 := by simpa using hbeq
    have : a.1 = c.1 := hab'.trans hbc'
    simp [nodeLe, this, strLe_trans _ _ _ hale hble]

theorem nodeLe_antisymm (a b : Node) (h1 : nodeLe a b = true)
    (h2 : nodeLe b a = true) : a = b := by
  rcases (Bool.or_eq_true _ _).mp h1 with hab | hab <;>
    rcases (Bool.or_eq_true _ _).mp h2 with hba | hba
  · rcases (strLt_iff _ _).mp hab with ⟨le1, ne1⟩
    rcases (strLt_iff _ _).mp hba with ⟨le2, _⟩
    exact absurd (strLe_antisymm _ _ le1 le2) ne1
  · rcases (Bool.and_eq_true _ _).mp hba with ⟨hbeq, _⟩
    rcases (strLt_iff _ _).mp hab with ⟨_, ne1⟩
    exact absurd (by simpa using hbeq : b.1 = a.1).symm ne1
  · rcases (Bool.and_eq_true _ _).mp hab with ⟨haeq, _⟩
    rcases (strLt_iff _ _).mp hba with ⟨_, ne2⟩
    exact absurd (by simpa using haeq : a.1 = b.1).symm ne2
  · rcases (Bool.and_eq_true _ _).mp hab with ⟨haeq, hale⟩
    rcases (Bool.and_eq_true _ _).mp hba with ⟨_, hble⟩
    have hf : a.1 = b.1 := by simpa using haeq
    have hs : a.2 = b.2 := strLe_antisymm _ _ hale hble
    exact Prod.ext hf hs

theorem sortStrings_congr_perm {l₁ l₂ : List String} (h : l₁.Perm l₂) :
    sortStrings l₁ = sortStrings l₂ :=
  stableSortBy_congr_perm strLe strLe_total strLe_trans strLe_antisymm h

theorem sortNodes_congr_perm {l₁ l₂ : List Node} (h : l₁.Perm l₂) :
    sortNodes l₁ = sortNodes l₂ :=
  stableSortBy_congr_perm nodeLe nodeLe_total nodeLe_trans nodeLe_antisymm h

theorem sortedKeys_congr_perm {α : Type} {l₁ l₂ : List (String × α)}
    (h : l₁.Perm l₂) : sortedKeys l₁ = sortedKeys l₂ :=
  sortStrings_congr_perm ((h.map Prod.fst).dedup)

theorem sorted_key_unique {α : Type} (key : α → String) :
    ∀ (l₁ l₂ : List α), l₁.Perm l₂ → (l₁.map key).Nodup →
      l₁.Pairwise (fun a b => strLe (key a) (key b) = true) →
      l₂.Pairwise (fun a b => strLe (key a) (key b) = true) → l₁ = l₂ := by
  intro l₁
  induction l₁ with
  | nil => intro l₂ h _ _ _; exact (h.nil_eq).symm ▸ rfl
  | cons a t ih =>
    intro l₂ h hnd s₁ s₂
    cases l₂ with
    | nil => exact absurd h.symm.nil_eq (by simp)
    | cons b t₂ =>
      rcases List.pairwise_cons.mp s₁ with ⟨ha, ht⟩
      rcases List.pairwise_cons.mp s₂ with ⟨hb, ht₂⟩
      have hab : a = b := by
        have hbmem : b ∈ a :: t := h.mem_iff.mpr (by simp)
        rcases List.mem_cons.mp hbmem with rfl | hbt
        · rfl
        · have hamem : a ∈ b :: t₂ := h.mem_iff.mp (by simp)
          rcases List.mem_cons.mp hamem with rfl | hat₂
          · rfl
          · have h1 : strLe (key a) (key b) = true := ha b hbt
            have h2 : strLe (key b) (key a) = true := hb a hat₂
            have hk : key a = key b := strLe_antisymm _ _ h1 h2
            exact List.inj_on_of_nodup_map hnd (List.mem_cons_self a t) hbmem hk
      subst hab
      have ht' : t.Perm t₂ := h.cons_inv
      rw [ih t₂ ht' (List.nodup_cons.mp (by simpa using hnd)).2 ht ht₂]

theorem sortByMethod_congr_perm {α : Type} (key : α → String)
    {l₁ l₂ : List α} (h : l₁.Perm l₂) (hnd : (l₁.map key).Nodup) :
    sortByMethod key l₁ = sortByMethod key l₂ := by
  have le := fun a b => strLe (key a) (key b)
  have p₁ := stableSortBy_perm (fun a b => strLe (key a) (key b)) l₁
  have p₂ := stableSortBy_perm (fun a b => strLe (key a) (key b)) l₂
  have hperm : (sortByMethod key l₁).Perm (sortByMethod key l₂) :=
    p₁.trans (h.trans p₂.symm)
  refine sorted_key_unique key _ _ hperm ?_ ?_ ?_
  · exact (p₁.map key).nodup_iff.mpr hnd
  · exact stableSortBy_pairwise _
      (fun a b => strLe_total (key a) (key b))
      (fun a b c => strLe_trans (key a) (key b) (key c)) l₁
  · exact stableSortBy_pairwise _
      (fun a b => strLe_total (key a) (key b))
      (fun a b c => strLe_trans (key a) (key b) (key c)) l₂

theorem find?_eq_head?_filter {α : Type} (p : α → Bool) (l : List α) :
    l.find? p = (l.filter p).head? := by
  induction l with
  | nil => simp
  | cons x xs ih =>
    by_cases h : p x = true
    · simp [List.find?_cons, List.filter_cons, h]
    · rw [List.find?_cons_of_neg _ (by simp [h]), List.filter_cons_of_neg (by simp [h]), ih]

theorem filter_key_length_le_one {α : Type} (k : String) :
    ∀ (l : List (String × α)), (l.map Prod.fst).Nodup →
      (l.filter (fun p => p.1 == k)).length ≤ 1 := by
  intro l
  induction l with
  | nil => simp
  | cons hd tl ih =>
    intro hnd
    rw [List.map_cons] at hnd
    rcases List.nodup_cons.mp hnd with ⟨hmem, htl⟩
    by_cases hb : (hd.1 == k) = true
    · have hk : hd.1 = k := by simpa using hb
      have : tl.filter (fun p => p.1 == k) = [] := by
        rw [List.filter_eq_nil_iff]
        intro p hp hpk
        have : p.1 = k := by simpa using hpk
        exact hmem (hk ▸ this ▸ List.mem_map_of_mem Prod.fst hp)
      simp [List.filter_cons, hb, this]
    · simpa [List.filter_cons, hb] using ih htl

theorem perm_eq_of_length_le_one {α : Type} {l₁ l₂ : List α}
    (h : l₁.Perm l₂) (hlen : l₁.length ≤ 1) : l₁ = l₂ := by
  cases l₁ with
  | nil => exact h.nil_eq
  | cons a t =>
    cases t with
    | nil => exact (List.perm_singleton.mp h.symm).symm
    | cons b u => simp at hlen

theorem alookup_congr_perm {α : Type} {l₁ l₂ : List (String × α)}
    (h : l₁.Perm l₂) (hnd : (l₁.map Prod.fst).Nodup) (k : String) :
    alookup l₁ k = alookup l₂ k := by
  have hfe : l₁.filter (fun p => p.1 == k) = l₂.filter (fun p => p.1 == k) :=
    perm_eq_of_length_le_one (h.filter _) (filter_key_length_le_one k l₁ hnd)
  unfold alookup
  rw [find?_eq_head?_filter, find?_eq_head?_filter,
      List.filter_reverse, List.filter_reverse, hfe]


/-- A schema model with no definitions at all (used by several concrete
evaluations). -/
def emptyCModel : CModel :=
  ⟨fun _ => none, [], fun _ => none, [], fun _ => none, [], [], []⟩

/-- Name map used by the self-reference rendering examples. -/
def nodeNameMap : List (String × String) := [("Node", "Node")]

/-- C2: the claim predicts the rendering `shared_handle<Node>` for a
self-reference inside `Node`; the code renders `std::shared_ptr<Node>`
(source line 531), so the claim as stated is false at this input. -/
theorem C2_counterexample :
    render_type emptyCModel nodeNameMap (TypeExpr.reference "Node") (some "Node") =
      "std::shared_ptr<Node>" ∧
    render_type emptyCModel nodeNameMap (TypeExpr.reference "Node") (some "Node") ≠
      "shared_handle<Node>" := by
  exact ⟨rfl, by decide⟩

/-- C2 (amended): for every type expression of kind reference whose name
equals the current struct being rendered, `render_type` returns the string
`std::shared_ptr<Name>` where `Name` is the name-map translation of that
struct's schema name (via the defaulted lookup `nmGet`). -/
theorem C2_amended (m : CModel) (nm : List (String × String)) (name : String)
    (current_struct : Option String) (h : current_struct = some name) :
    render_type m nm (TypeExpr.reference name) current_struct =
      "std::shared_ptr<" ++ nmGet nm name ++ ">" := by
  subst h
  simp [render_type]

/-- C2 (amended) witness at the self-referencing `Node` example. -/
theorem C2_amended_witness :
    render_type emptyCModel nodeNameMap (TypeExpr.reference "Node") (some "Node") =
      "std::shared_ptr<" ++ nmGet nodeNameMap "Node" ++ ">" :=
  C2_amended emptyCModel nodeNameMap "Node" (some "Node") rfl



theorem camelAux_eq_idx (l : List Char) : ∀ prev,
    camelToSnakeAux prev l = ((List.range l.length).map (snakeIdx prev l)).flatten := by
  induction l with
  | nil => intro prev; simp [camelToSnakeAux]
  | cons c rest ih =>
    intro prev
    rw [List.length_cons, List.range_succ_eq_map, List.map_cons, List.map_map]
    have h0 : snakeIdx prev (c :: rest) 0 =
        (if c.isUpper then
          (if (match prev with
               | some p => p.isLower || (match rest with
                                         | n :: _ => n.isLower
                                         | [] => false)
               | none => false)
           then ['_', c.toLower] else [c.toLower])
         else [c]) := by
      simp only [snakeIdx]
      cases rest <;> cases prev <;> simp [List.getD]
    have hshift : ∀ i, i ∈ List.range rest.length →
        (snakeIdx prev (c :: rest) ∘ Nat.succ) i = snakeIdx (some c) rest i := by
      intro i _
      simp only [Function.comp, snakeIdx]
      cases i with
      | zero => simp [List.getD]
      | succ j => simp [List.getD]
    rw [List.map_congr_left hshift]
    simp only [List.flatten_cons, h0]
    rw [← ih (some c)]
    simp only [camelToSnakeAux]
    cases hU : c.isUpper <;> cases prev <;> cases rest <;> simp [hU]

/-- C8: the claim's rule inserts an underscore before an uppercase letter at
position 0 when it is followed by a lowercase letter; the code's loop only
does so at positions greater than 0 (source line 154: `i > 0 and …`).  On
the input `Ab` the claim's rule yields `_ab` while `camel_to_snake` yields
`ab`, so the claim as stated is false. -/
theorem C8_counterexample :
    camel_to_snake_spec_rule "Ab" = "_ab" ∧ camel_to_snake "Ab" = "ab" ∧
    camel_to_snake "Ab" ≠ camel_to_snake_spec_rule "Ab" := by
  decide

/-- C8 (amended): `camel_to_snake` inserts an underscore before every
uppercase letter at a position strictly greater than 0 that is preceded by
a lowercase letter or followed by a lowercase letter, and lowercases all
characters; stated positionally over the input's characters. -/
theorem C8_amended (name : String) :
    camel_to_snake name = camel_to_snake_expected name := by
  unfold camel_to_snake camel_to_snake_expected
  rw [camelAux_eq_idx]
  congr 1
  apply congrArg
  apply List.map_congr_left
  intro i _
  simp only [snakeIdx]
  cases i with
  | zero => simp
  | succ j => simp

theorem dedupKeepFirstAux_eq_spec :
    ∀ (l seen : List String),
      dedupKeepFirstAux l seen = dedupFirstSpec (l.filter (fun y => decide (y ∉ seen))) := by
  intro l
  induction l with
  | nil => intro seen; simp [dedupKeepFirstAux, dedupFirstSpec]
  | cons x xs ih =>
    intro seen
    by_cases hx : x ∈ seen
    · rw [dedupKeepFirstAux, if_pos hx, List.filter_cons_of_neg (by simp [hx]), ih]
    · rw [dedupKeepFirstAux, if_neg hx, List.filter_cons_of_pos (by simp [hx]),
          dedupFirstSpec, ih (x :: seen)]
      congr 1
      apply congrArg
      rw [List.filter_filter]
      apply List.filter_congr
      intro y _
      by_cases hy : y = x <;> by_cases hys : y ∈ seen <;> simp [hy, hys]

theorem dedupKeepFirst_eq_spec (l : List String) :
    dedupKeepFirst l = dedupFirstSpec l := by
  rw [dedupKeepFirst, dedupKeepFirstAux_eq_spec]
  congr 1
  simp

theorem render_or_items_eq (m : CModel) (nm : List (String × String))
    (cur : Option String) :
    ∀ (items : TypeList),
      render_or_items m nm items cur =
        ((items.toList.filter (fun t => !isNullBase t)).map
           (fun t => render_type m nm t cur),
         items.toList.any isNullBase)
  | .nil => by simp [render_or_items, TypeList.toList]
  | .cons h t => by
    have ih := render_or_items_eq m nm cur t
    by_cases hn : isNullBase h = true
    · simp [render_or_items, TypeList.toList, hn, ih]
    · simp [render_or_items, TypeList.toList, hn, ih]

/-- C4: `render_or` separates the null arms, renders the non-null arms in
order, deduplicates the renderings preserving first-seen order, and then
shapes the result: with null present, one distinct rendering gives
`nullable<T>`, several give `variant<null, T1, …>` with null first, none
gives `null`; without null, no rendering gives `null`, one gives the
rendering alone, several give `variant<T1, …>`.  The `orType` branch of
`render_type` agrees with `render_or` definitionally. -/
theorem C4_render_or_shape (m : CModel) (nm : List (String × String))
    (items : TypeList) (cur : Option String) :
    render_type m nm (TypeExpr.orType items) cur = render_or m nm items cur ∧
    render_or m nm items cur =
      (let uniq := dedupFirstSpec
         ((items.toList.filter (fun t => !isNullBase t)).map
            (fun t => render_type m nm t cur))
       if items.toList.any isNullBase then
         match uniq with
         | [] => "null"
         | [t] => "nullable<" ++ t ++ ">"
         | _ => "variant<" ++ String.intercalate ", " ("null" :: uniq) ++ ">"
       else
         match uniq with
         | [] => "null"
         | [t] => t
         | _ => "variant<" ++ String.intercalate ", " uniq ++ ">") := by
  refine ⟨rfl, ?_⟩
  rw [render_or, render_or_items_eq m nm cur items, dedupKeepFirst_eq_spec]
  cases hsaw : items.toList.any isNullBase
  · rcases hu : dedupFirstSpec ((items.toList.filter (fun t => !isNullBase t)).map
        (fun t => render_type m nm t cur)) with _ | ⟨t, _ | ⟨u, rest⟩⟩ <;>
      simp [hu]
  · rcases hu : dedupFirstSpec ((items.toList.filter (fun t => !isNullBase t)).map
        (fun t => render_type m nm t cur)) with _ | ⟨t, _ | ⟨u, rest⟩⟩ <;>
      simp [hu, List.headI]

theorem foldl_min_le_init (rest : List Int) : ∀ v : Int, rest.foldl min v ≤ v := by
  induction rest with
  | nil => intro v; simp
  | cons r t ih =>
    intro v
    calc (r :: t).foldl min v = t.foldl min (min v r) := by simp [List.foldl_cons]
    _ ≤ min v r := ih (min v r)
    _ ≤ v := min_le_left v r

theorem foldl_min_le_mem (rest : List Int) : ∀ (v x : Int), x ∈ rest → rest.foldl min v ≤ x := by
  induction rest with
  | nil => intro v x h; simp at h
  | cons r t ih =>
    intro v x h
    rcases List.mem_cons.mp h with rfl | h
    · calc (x :: t).foldl min v = t.foldl min (min v x) := by simp [List.foldl_cons]
      _ ≤ min v x := foldl_min_le_init t (min v x)
      _ ≤ x := min_le_right v x
    · simpa [List.foldl_cons] using ih (min v r) x h

theorem foldl_min_mem (rest : List Int) : ∀ v : Int, rest.foldl min v = v ∨ rest.foldl min v ∈ rest := by
  induction rest with
  | nil => intro v; left; rfl
  | cons r t ih =>
    intro v
    rcases ih (min v r) with h | h
    · rcases min_choice v r with hc | hc
      · left; rw [List.foldl_cons, h, hc]
      · right; rw [List.foldl_cons, h, hc]; exact List.mem_cons_self r t
    · right; rw [List.foldl_cons]; exact List.mem_cons_of_mem r h

theorem intListMin_le {values : List Int} {v : Int} (h : v ∈ values) :
    intListMin values ≤ v := by
  cases values with
  | nil => simp at h
  | cons w rest =>
    rcases List.mem_cons.mp h with rfl | h
    · exact foldl_min_le_init rest v
    · exact foldl_min_le_mem rest w v h

theorem intListMin_mem {values : List Int} (h : values ≠ []) :
    intListMin values ∈ values := by
  cases values with
  | nil => exact absurd rfl h
  | cons w rest =>
    rcases foldl_min_mem rest w with h2 | h2
    · simp [intListMin, h2]
    · simp [intListMin]; right; exact h2

theorem foldl_max_ge_init (rest : List Int) : ∀ v : Int, v ≤ rest.foldl max v := by
  induction rest with
  | nil => intro v; simp
  | cons r t ih =>
    intro v
    calc v ≤ max v r := le_max_left v r
    _ ≤ t.foldl max (max v r) := ih (max v r)
    _ = (r :: t).foldl max v := by simp [List.foldl_cons]

theorem foldl_max_ge_mem (rest : List Int) : ∀ (v x : Int), x ∈ rest → x ≤ rest.foldl max v := by
  induction rest with
  | nil => intro v x h; simp at h
  | cons r t ih =>
    intro v x h
    rcases List.mem_cons.mp h with rfl | h
    · calc x ≤ max v x := le_max_right v x
      _ ≤ t.foldl max (max v x) := foldl_max_ge_init t (max v x)
      _ = (x :: t).foldl max v := by simp [List.foldl_cons]
    · simpa [List.foldl_cons] using ih (max v r) x h

theorem foldl_max_mem (rest : List Int) : ∀ v : Int, rest.foldl max v = v ∨ rest.foldl max v ∈ rest := by
  induction rest with
  | nil => intro v; left; rfl
  | cons r t ih =>
    intro v
    rcases ih (max v r) with h | h
    · rcases max_choice v r with hc | hc
      · left; rw [List.foldl_cons, h, hc]
      · right; rw [List.foldl_cons, h, hc]; exact List.mem_cons_self r t
    · right; rw [List.foldl_cons]; exact List.mem_cons_of_mem r h

theorem le_intListMax {values : List Int} {v : Int} (h : v ∈ values) :
    v ≤ intListMax values := by
  cases values with
  | nil => simp at h
  | cons w rest =>
    rcases List.mem_cons.mp h with rfl | h
    · exact foldl_max_ge_init rest v
    · exact foldl_max_ge_mem rest w v h

theorem intListMax_mem {values : List Int} (h : values ≠ []) :
    intListMax values ∈ values := by
  cases values with
  | nil => exact absurd rfl h
  | cons w rest =>
    rcases foldl_max_mem rest w with h2 | h2
    · simp [intListMax, h2]
    · simp [intListMax]; right; exact h2

theorem smallest_signed_spec (lo hi : Int)
    (hlo : -(2 ^ 63) ≤ lo) (hhi : hi ≤ 2 ^ 63 - 1) :
    ∃ bits, bits ∈ intWidths ∧ smallest_signed_type lo hi = signedTypeName bits ∧
      (-(2 ^ (bits - 1)) ≤ lo ∧ hi ≤ 2 ^ (bits - 1) - 1) ∧
      ∀ b2 ∈ intWidths, b2 < bits → lo < -(2 ^ (b2 - 1)) ∨ ((2 : Int) ^ (b2 - 1) - 1) < hi := by
  by_cases h8 : -128 ≤ lo ∧ hi ≤ 127
  · refine ⟨8, by simp [intWidths], ?_, ?_, ?_⟩
    · simp [smallest_signed_type, h8.1, h8.2, signedTypeName]; decide
    · constructor <;> norm_num <;> omega
    · intro b2 hb2 hlt
      fin_cases hb2 <;> omega
  · have hn8 : ¬ (decide (-128 ≤ lo) && decide (hi ≤ 127)) = true := by
      simp only [Bool.and_eq_true, decide_eq_true_eq]; exact fun hc => h8 hc
    by_cases h16 : -32768 ≤ lo ∧ hi ≤ 32767
    · refine ⟨16, by simp [intWidths], ?_, ?_, ?_⟩
      · simp [smallest_signed_type, hn8, h16.1, h16.2, signedTypeName]; decide
      · constructor <;> norm_num <;> omega
      · intro b2 hb2 hlt
        fin_cases hb2 <;> norm_num <;> omega
    · have hn16 : ¬ (decide (-32768 ≤ lo) && decide (hi ≤ 32767)) = true := by
        simp only [Bool.and_eq_true, decide_eq_true_eq]; exact fun hc => h16 hc
      by_cases h32 : -2147483648 ≤ lo ∧ hi ≤ 2147483647
      · refine ⟨32, by simp [intWidths], ?_, ?_, ?_⟩
        · simp [smallest_signed_type, hn8, hn16, h32.1, h32.2, signedTypeName]; decide
        · constructor <;> norm_num <;> omega
        · intro b2 hb2 hlt
          fin_cases hb2 <;> norm_num <;> omega
      · have hn32 : ¬ (decide (-2147483648 ≤ lo) && decide (hi ≤ 2147483647)) = true := by
          simp only [Bool.and_eq_true, decide_eq_true_eq]; exact fun hc => h32 hc
        refine ⟨64, by simp [intWidths], ?_, ?_, ?_⟩
        · simp [smallest_signed_type, hn8, hn16, hn32, signedTypeName]; decide
        · constructor <;> norm_num <;> omega
        · intro b2 hb2 hlt
          fin_cases hb2 <;> norm_num <;> omega

theorem smallest_unsigned_spec (hi : Int) (h0 : 0 ≤ hi) (hub : hi ≤ 2 ^ 64 - 1) :
    ∃ bits, bits ∈ intWidths ∧ smallest_unsigned_type hi = unsignedTypeName bits ∧
      hi ≤ 2 ^ bits - 1 ∧
      ∀ b2 ∈ intWidths, b2 < bits → ((2 : Int) ^ b2 - 1) < hi := by
  by_cases h8 : hi ≤ 255
  · refine ⟨8, by simp [intWidths], ?_, by norm_num; omega, ?_⟩
    · simp [smallest_unsigned_type, h8, unsignedTypeName]; decide
    · intro b2 hb2 hlt
      fin_cases hb2 <;> omega
  · by_cases h16 : hi ≤ 65535
    · refine ⟨16, by simp [intWidths], ?_, by norm_num; omega, ?_⟩
      · simp [smallest_unsigned_type, h8, h16, unsignedTypeName]; decide
      · intro b2 hb2 hlt
        fin_cases hb2 <;> norm_num <;> omega
    · by_cases h32 : hi ≤ 4294967295
      · refine ⟨32, by simp [intWidths], ?_, by norm_num; omega, ?_⟩
        · simp [smallest_unsigned_type, h8, h16, h32, unsignedTypeName]; decide
        · intro b2 hb2 hlt
          fin_cases hb2 <;> norm_num <;> omega
      · refine ⟨64, by simp [intWidths], ?_, by norm_num; omega, ?_⟩
        · simp [smallest_unsigned_type, h8, h16, h32, unsignedTypeName]; decide
        · intro b2 hb2 hlt
          fin_cases hb2 <;> norm_num <;> omega

/-- C7: for every closed integer-based enum with at least one declared
integer value, the underlying type `emit_enum` selects is the narrowest
signed (for `integer`) or unsigned (for `uinteger`) fixed-width type that
fits all declared values (assuming they fit 64 bits, and are non-negative
when declared `uinteger`); values `[1, 2, 5]` yield `std::int8_t`, values
including `200` yield `std::uint8_t` under `uinteger` and `std::int16_t`
under `integer`; open enums keep the declared base type.  The spec names
the types without the `std::` prefix; they denote the same fixed-width
types. -/
theorem C7_enum_underlying (values : List Int) (hne : values ≠ []) :
    ((-(2 ^ 63) ≤ intListMin values ∧ intListMax values ≤ 2 ^ 63 - 1) →
      ∃ bits, bits ∈ intWidths ∧
        emit_enum_underlying "integer" false values = signedTypeName bits ∧
        (∀ v ∈ values, fitsSigned bits v) ∧
        (∀ b2 ∈ intWidths, b2 < bits → ∃ v ∈ values, ¬ fitsSigned b2 v)) ∧
    ((0 ≤ intListMin values ∧ intListMax values ≤ 2 ^ 64 - 1) →
      ∃ bits, bits ∈ intWidths ∧
        emit_enum_underlying "uinteger" false values = unsignedTypeName bits ∧
        (∀ v ∈ values, fitsUnsigned bits v) ∧
        (∀ b2 ∈ intWidths, b2 < bits → ∃ v ∈ values, ¬ fitsUnsigned b2 v)) ∧
    (∀ base : String, emit_enum_underlying base true values = base) ∧
    emit_enum_underlying "integer" false [1, 2, 5] = "std::int8_t" ∧
    emit_enum_underlying "uinteger" false [1, 2, 200] = "std::uint8_t" ∧
    emit_enum_underlying "integer" false [1, 2, 200] = "std::int16_t" := by
  have hempty : values.isEmpty = false := by
    cases values with
    | nil => exact absurd rfl hne
    | cons a t => rfl
  refine ⟨?_, ?_, ?_, by decide, by decide, by decide⟩
  · rintro ⟨hlo, hhi⟩
    rcases smallest_signed_spec (intListMin values) (intListMax values)
        hlo hhi with
      ⟨bits, hmem, heq, ⟨hflo, hfhi⟩, hminimal⟩
    refine ⟨bits, hmem, ?_, ?_, ?_⟩
    · simpa [emit_enum_underlying, hempty] using heq
    · intro v hv
      exact ⟨le_trans hflo (intListMin_le hv), le_trans (le_intListMax hv) hfhi⟩
    · intro b2 hb2 hlt
      rcases hminimal b2 hb2 hlt with h | h
      · exact ⟨intListMin values, intListMin_mem hne,
               fun hf => absurd hf.1 (not_le.mpr h)⟩
      · exact ⟨intListMax values, intListMax_mem hne,
               fun hf => absurd hf.2 (not_le.mpr h)⟩
  · rintro ⟨h0, hub⟩
    rcases smallest_unsigned_spec (intListMax values)
        (le_trans h0 (le_intListMax (intListMin_mem hne))) hub with
      ⟨bits, hmem, heq, hfhi, hminimal⟩
    refine ⟨bits, hmem, ?_, ?_, ?_⟩
    · simpa [emit_enum_underlying, hempty] using heq
    · intro v hv
      exact ⟨le_trans h0 (intListMin_le hv), le_trans (le_intListMax hv) hfhi⟩
    · intro b2 hb2 hlt
      exact ⟨intListMax values, intListMax_mem hne,
             fun hf => absurd hf.2 (not_le.mpr (hminimal b2 hb2 hlt))⟩
  · intro base
    simp [emit_enum_underlying]


/-- C7 witness at the concrete value lists of the claim. -/
theorem C7_enum_underlying_witness :
    ∃ bits, bits ∈ intWidths ∧
      emit_enum_underlying "integer" false [1, 2, 5] = signedTypeName bits ∧
      (∀ v ∈ [(1 : Int), 2, 5], fitsSigned bits v) ∧
      (∀ b2 ∈ intWidths, b2 < bits → ∃ v ∈ [(1 : Int), 2, 5], ¬ fitsSigned b2 v) :=
  (C7_enum_underlying [1, 2, 5] (by decide)).1 (by decide)

theorem make_member_fst_indep (m : CModel) (nm : List (String × String))
    (d₁ d₂ : Diags) (o : String) (f : FlattenedProperty) (i : Option String) :
    (make_member m nm d₁ o f i).1 = (make_member m nm d₂ o f i).1 := rfl

theorem ownPropsFold_members (m : CModel) (nm : List (String × String)) (sn : String) :
    ∀ (props : List PropertyDef) (st : List MemberDef × Diags),
      (props.foldl (ownPropStep m nm sn) st).1 =
        st.1 ++ props.map (fun p => (make_member m nm Diags.empty sn ⟨p, sn⟩ none).1) := by
  intro props
  induction props with
  | nil => intro st; simp
  | cons p ps ih =>
    intro st
    rw [List.foldl_cons, ih]
    simp [ownPropStep, make_member_fst_indep m nm _ Diags.empty]

/-- C10: for every struct whose parents list is exactly one name that is
not a defined structure, the collected members are exactly the struct's own
properties — no inherited members are flattened in and no `flatten<Parent>`
member is produced (neither the single-inheritance branch nor the
multi-parent branch of `collect_struct_members` fires). -/
theorem C10_undefined_single_parent (m : CModel) (nm : List (String × String))
    (struct_name parent : String) (sd : StructDef) (diags : Diags)
    (h1 : m.structFind struct_name = some sd)
    (h2 : sd.parents = [parent])
    (h3 : m.structFind parent = none) :
    (collect_struct_members m nm struct_name diags).1 =
      sd.properties.map (fun p =>
        (make_member m nm Diags.empty struct_name ⟨p, struct_name⟩ none).1) := by
  simp only [collect_struct_members, h1, h2, h3, Option.isSome_none,
    Bool.false_eq_true, if_false]
  rw [ownPropsFold_members]
  simp

/-- C10 witness: the struct `X` with undefined parent `Missing` emits only
its own property. -/
theorem C10_undefined_single_parent_witness :
    (collect_struct_members c10Model [] "X" Diags.empty).1 =
      (parseStruct ⟨"X", [TypeExpr.reference "Missing"], [],
        [⟨"p", TypeExpr.base "integer", false, DocInfo.empty⟩], DocInfo.empty⟩).properties.map
        (fun p => (make_member c10Model [] Diags.empty "X" ⟨p, "X"⟩ none).1) :=
  C10_undefined_single_parent c10Model [] "X" "Missing" _ Diags.empty (by decide) (by decide) (by decide)

theorem unique_member_name_fst (sn b : String) (used : List String) (d : Diags) :
    (unique_member_name sn b used d).1 =
      (if used.count b = 0 then b else b ++ "_" ++ natRepr (used.count b + 1)) := by
  unfold unique_member_name
  by_cases h : used.count b = 0 <;> simp [h]

theorem assignedNamesAux_get? :
    ∀ (l used : List String) (k : Nat) (b : String), l.get? k = some b →
      (assignedNamesAux l used).get? k =
        some (if used.count b + (l.take k).count b = 0 then b
              else b ++ "_" ++ natRepr (used.count b + (l.take k).count b + 1)) := by
  intro l
  induction l with
  | nil => intro used k b h; simp at h
  | cons x rest ih =>
    intro used k b h
    cases k with
    | zero =>
      have hb : b = x := by simpa using h.symm
      subst hb
      simp [assignedNamesAux]
    | succ k =>
      have h2 : rest.get? k = some b := by simpa using h
      have := ih (x :: used) k b h2
      rw [assignedNamesAux]
      simp only [List.get?_cons_succ, this, List.take_succ_cons, List.count_cons]
      by_cases hxb : x = b
      · simp [hxb, List.count_cons]
        ring_nf
      · simp [hxb, List.count_cons]

theorem make_member_unsafe_preserved (m : CModel) (nm : List (String × String))
    (d : Diags) (o : String) (f : FlattenedProperty) (i : Option String) :
    (make_member m nm d o f i).2.unsafe_override_warnings =
      d.unsafe_override_warnings := by
  unfold make_member
  by_cases h1 : (is_optional_bool f.prop && bool_default_needs_warning f.prop) = true <;>
    by_cases h2 : (property_member_name f.prop.name).2 = true <;>
      simp [h1, h2, Diags.addBool, Diags.addKeyword]

theorem inhFold_members (m : CModel) (nm : List (String × String))
    (sn par : String) (la : List (String × PropertyDef)) :
    ∀ (flats : List FlattenedProperty) (st : List MemberDef × Diags),
      (flats.foldl (inheritedStep m nm sn par la) st).1 =
        st.1 ++ flats.filterMap (fun flat =>
          match alookup la (property_member_name flat.prop.name).1 with
          | some local_prop =>
            if (is_safe_override flat.prop local_prop).1 then none
            else some (make_member m nm Diags.empty sn flat (some par)).1
          | none => some (make_member m nm Diags.empty sn flat (some par)).1) := by
  intro flats
  induction flats with
  | nil => intro st; simp
  | cons flat rest ih =>
    intro st
    rw [List.foldl_cons, ih, List.filterMap_cons]
    cases hl : alookup la (property_member_name flat.prop.name).1 with
    | none =>
      simp [inheritedStep, hl, make_member_fst_indep m nm _ Diags.empty]
    | some lp =>
      by_cases hs : (is_safe_override flat.prop lp).1 = true
      · simp [inheritedStep, hl, hs]
      · simp [inheritedStep, hl, hs, make_member_fst_indep m nm _ Diags.empty]

theorem inhFold_unsafe (m : CModel) (nm : List (String × String))
    (sn par : String) (la : List (String × PropertyDef)) :
    ∀ (flats : List FlattenedProperty) (st : List MemberDef × Diags),
      (flats.foldl (inheritedStep m nm sn par la) st).2.unsafe_override_warnings =
        st.2.unsafe_override_warnings ++ flats.filterMap (fun flat =>
          match alookup la (property_member_name flat.prop.name).1 with
          | some local_prop =>
            if (is_safe_override flat.prop local_prop).1 then none
            else some (sn ++ "." ++ (property_member_name flat.prop.name).1 ++
              ": inherited `" ++ flat.prop.name ++ "` from `" ++
              flat.declared_in ++ "` conflicts with local `" ++
              local_prop.name ++ "`; " ++ (is_safe_override flat.prop local_prop).2 ++ ".")
          | none => none) := by
  intro flats
  induction flats with
  | nil => intro st; simp
  | cons flat rest ih =>
    intro st
    rw [List.foldl_cons, ih, List.filterMap_cons]
    cases hl : alookup la (property_member_name flat.prop.name).1 with
    | none =>
      simp [inheritedStep, hl, make_member_unsafe_preserved]
    | some lp =>
      by_cases hs : (is_safe_override flat.prop lp).1 = true
      · simp [inheritedStep, hl, hs]
      · simp [inheritedStep, hl, hs, make_member_unsafe_preserved, Diags.addUnsafe]

theorem ownFold_unsafe (m : CModel) (nm : List (String × String)) (sn : String) :
    ∀ (props : List PropertyDef) (st : List MemberDef × Diags),
      (props.foldl (ownPropStep m nm sn) st).2.unsafe_override_warnings =
        st.2.unsafe_override_warnings := by
  intro props
  induction props with
  | nil => intro st; simp
  | cons p ps ih =>
    intro st
    rw [List.foldl_cons, ih]
    simp [ownPropStep, make_member_unsafe_preserved]

theorem alookup_some_mem {α : Type} {l : List (String × α)} {k : String} {v : α}
    (h : alookup l k = some v) : (k, v) ∈ l := by
  unfold alookup at h
  cases hf : l.reverse.find? (fun p => p.1 == k) with
  | none => rw [hf] at h; simp at h
  | some pair =>
    rw [hf] at h
    have hp := List.find?_some hf
    have hm := List.mem_of_find?_eq_some hf
    have hk : pair.1 = k := by simpa using hp
    have hv : pair.2 = v := by simpa using h
    have hpair : pair = (k, v) := Prod.ext hk hv
    rw [← hpair]
    exact List.mem_reverse.mp hm

/-- C1: the claim predicts that after collision-renaming the child's local
member keeps the bare name `id` and the inherited member becomes `id_2`;
the code emits the inherited member first, so the renamer gives the
inherited `integer` member the bare `id` and the local `string` member
`id_2`, while the unsafe-override warning is recorded and both members are
kept. -/
theorem C1_counterexample :
    (emit_struct c1Model c1Nm "Child" Diags.empty).1 =
      "struct Child \x7b\n    /// Schema field: id. (Inherited from [Parent])\n    integer id;\n\n    /// Schema field: id.\n    string id_2;\n\x7d;" ∧
    (generateDiags c1Schema).unsafe_override_warnings =
      ["Child.id: inherited `id` from `Parent` conflicts with local `id`; child field type is not a safe subtype of parent field type."] := by
  constructor
  · decide
  · decide

/-- C1 (amended): for every struct with a single defined structural parent,
when an inherited property and a local property map to the same target
member name and the override is unsafe, the unsafe-override warning is
recorded in the diagnostics collector, both members are emitted with the
inherited member strictly before the local one, and the collision-renaming
pass gives the first occurrence of the colliding name (the inherited
member) the bare name and the second occurrence (the child's local member)
the `_2` suffix. -/
theorem C1_amended (m : CModel) (nm : List (String × String))
    (struct_name parent : String) (sd : StructDef) (diags : Diags)
    (flat : FlattenedProperty) (local_prop : PropertyDef)
    (h1 : m.structFind struct_name = some sd)
    (h2 : sd.parents = [parent])
    (h3 : (m.structFind parent).isSome = true)
    (hflat : flat ∈ collectFlattened m parent)
    (hlocal : alookup (sd.properties.map (fun p => ((property_member_name p.name).1, p)))
        (property_member_name flat.prop.name).1 = some local_prop)
    (hflagged : (is_safe_override flat.prop local_prop).1 = false) :
    ((struct_name ++ "." ++ (property_member_name flat.prop.name).1 ++ ": inherited `" ++
        flat.prop.name ++ "` from `" ++ flat.declared_in ++ "` conflicts with local `" ++
        local_prop.name ++ "`; " ++ (is_safe_override flat.prop local_prop).2 ++ ".") ∈
      (collect_struct_members m nm struct_name diags).2.unsafe_override_warnings) ∧
    (∃ i j, i < j ∧
      (collect_struct_members m nm struct_name diags).1.get? i =
        some (make_member m nm Diags.empty struct_name flat (some parent)).1 ∧
      (collect_struct_members m nm struct_name diags).1.get? j =
        some (make_member m nm Diags.empty struct_name ⟨local_prop, struct_name⟩ none).1) ∧
    (∀ (names : List String) (i j : Nat) (iname : String),
      names.get? i = some iname → names.get? j = some iname →
      (names.take i).count iname = 0 → (names.take j).count iname = 1 →
      (assignedNames names).get? i = some iname ∧
      (assignedNames names).get? j = some (iname ++ "_2")) := by
  have hcsm : collect_struct_members m nm struct_name diags =
      (sd.properties.foldl (ownPropStep m nm struct_name)
        ((collectFlattened m parent).foldl
          (inheritedStep m nm struct_name parent
            (sd.properties.map (fun p => ((property_member_name p.name).1, p))))
          ([], diags))) := by
    simp [collect_struct_members, h1, h2, h3]
  refine ⟨?_, ?_, ?_⟩
  · rw [hcsm, ownFold_unsafe, inhFold_unsafe]
    apply List.mem_append.mpr
    right
    apply List.mem_filterMap.mpr
    exact ⟨flat, hflat, by simp [hlocal, hflagged]⟩
  · rw [hcsm, ownPropsFold_members, inhFold_members]
    have him : (make_member m nm Diags.empty struct_name flat (some parent)).1 ∈
        (collectFlattened m parent).filterMap (fun flat =>
          match alookup (sd.properties.map (fun p => ((property_member_name p.name).1, p)))
              (property_member_name flat.prop.name).1 with
          | some local_prop =>
            if (is_safe_override flat.prop local_prop).1 then none
            else some (make_member m nm Diags.empty struct_name flat (some parent)).1
          | none => some (make_member m nm Diags.empty struct_name flat (some parent)).1) :=
      List.mem_filterMap.mpr ⟨flat, hflat, by simp [hlocal, hflagged]⟩
    have hlp_mem : local_prop ∈ sd.properties := by
      have hmem := alookup_some_mem hlocal
      rcases List.mem_map.mp hmem with ⟨p, hp, hpe⟩
      have hps : p = local_prop := congrArg Prod.snd hpe
      exact hps ▸ hp
    have hlm : (make_member m nm Diags.empty struct_name ⟨local_prop, struct_name⟩ none).1 ∈
        sd.properties.map (fun p =>
          (make_member m nm Diags.empty struct_name ⟨p, struct_name⟩ none).1) :=
      List.mem_map.mpr ⟨local_prop, hlp_mem, rfl⟩
    set inh := (collectFlattened m parent).filterMap (fun flat =>
          match alookup (sd.properties.map (fun p => ((property_member_name p.name).1, p)))
              (property_member_name flat.prop.name).1 with
          | some local_prop =>
            if (is_safe_override flat.prop local_prop).1 then none
            else some (make_member m nm Diags.empty struct_name flat (some parent)).1
          | none => some (make_member m nm Diags.empty struct_name flat (some parent)).1) with hinhdef
    rcases List.get?_of_mem him with ⟨i, hi⟩
    rcases List.get?_of_mem hlm with ⟨j0, hj0⟩
    have hilt := (List.get?_eq_some.mp hi).1
    refine ⟨i, inh.length + j0, by omega, ?_, ?_⟩
    · show (([] : List MemberDef) ++ inh ++ _).get? i = _
      rw [List.nil_append, List.get?_append hilt, hi]
    · show (([] : List MemberDef) ++ inh ++ _).get? (inh.length + j0) = _
      rw [List.nil_append, List.get?_append_right (by omega)]
      simpa using hj0
  · intro names i j iname hni hnj hci hcj
    constructor
    · rw [assignedNames, assignedNamesAux_get? names [] i iname hni]
      simp [hci]
    · rw [assignedNames, assignedNamesAux_get? names [] j iname hnj]
      simp [hcj]
      have h2eq : natRepr 2 = "2" := rfl
      rw [h2eq]
      apply stringDataEq
      simp

/-- C1 (amended) witness at the Parent/Child unsafe-override schema. -/
theorem C1_amended_witness :
    ("Child." ++ (property_member_name c1Flat.prop.name).1 ++ ": inherited `" ++
        c1Flat.prop.name ++ "` from `" ++ c1Flat.declared_in ++ "` conflicts with local `" ++
        c1Local.name ++ "`; " ++ (is_safe_override c1Flat.prop c1Local).2 ++ ".") ∈
      (collect_struct_members c1Model c1Nm "Child" Diags.empty).2.unsafe_override_warnings :=
  (C1_amended c1Model c1Nm "Child" "Parent" c1ChildSd Diags.empty c1Flat c1Local
    (by decide) (by decide) (by decide) (by decide) (by decide) (by decide)).1

/-- C3: the claim predicts a diagnostic recording the dependency-graph
cycle; the generator has exactly four diagnostic channels and none records
cycles — on a schema whose two structs reference each other (a genuine
cycle: each is the other's only dependency, so the Kahn queue starts
empty), the run completes with the cycle nodes appended in sorted order
and a completely empty diagnostics collector. -/
theorem C3_counterexample :
    nodeDeps (canonModel (parse_schema c3Schema)) ("S", "A") = [("S", "B")] ∧
    nodeDeps (canonModel (parse_schema c3Schema)) ("S", "B") = [("S", "A")] ∧
    kahnPart (buildNodes (canonModel (parse_schema c3Schema)))
      (nodeDeps (canonModel (parse_schema c3Schema))) = [] ∧
    build_node_order (canonModel (parse_schema c3Schema)) = [("S", "A"), ("S", "B")] ∧
    generateDiags c3Schema = Diags.empty := by
  refine ⟨by decide, by decide, by decide, by decide, by decide⟩

/-- C3 (amended): when a cycle persists (the Kahn phase does not cover all
nodes), the remaining nodes are appended to the emission order in sorted
order, so every node is still emitted; no diagnostic is recorded for the
cycle — `topological_order` returns only the order and the diagnostics
collector has no dependency-cycle channel. -/
theorem C3_amended (nodes : List Node) (deps : Node → List Node)
    (hcycle : (kahnPart nodes deps).length ≠ nodes.length) :
    topological_order nodes deps =
      kahnPart nodes deps ++
        (sortNodes nodes).filter (fun n => n ∉ kahnPart nodes deps) ∧
    (∀ n ∈ nodes, n ∈ topological_order nodes deps) ∧
    ((sortNodes nodes).filter (fun n => n ∉ kahnPart nodes deps)).Pairwise
      (fun a b => nodeLe a b = true) := by
  have heq : topological_order nodes deps =
      kahnPart nodes deps ++
        (sortNodes nodes).filter (fun n => n ∉ kahnPart nodes deps) := by
    unfold topological_order
    simp [hcycle]
  refine ⟨heq, ?_, ?_⟩
  · intro n hn
    rw [heq]
    by_cases hk : n ∈ kahnPart nodes deps
    · exact List.mem_append.mpr (Or.inl hk)
    · refine List.mem_append.mpr (Or.inr ?_)
      refine List.mem_filter.mpr ⟨?_, by simpa using hk⟩
      exact (stableSortBy_perm nodeLe nodes).mem_iff.mpr hn
  · exact (stableSortBy_pairwise nodeLe nodeLe_total nodeLe_trans nodes).filter _

/-- C3 (amended) witness at the concrete two-node cycle. -/
theorem C3_amended_witness :
    topological_order [(("S", "A") : Node), ("S", "B")] c3Deps =
      kahnPart [(("S", "A") : Node), ("S", "B")] c3Deps ++
        (sortNodes [(("S", "A") : Node), ("S", "B")]).filter
          (fun n => n ∉ kahnPart [(("S", "A") : Node), ("S", "B")] c3Deps) ∧
    (∀ n ∈ [(("S", "A") : Node), ("S", "B")],
      n ∈ topological_order [(("S", "A") : Node), ("S", "B")] c3Deps) ∧
    ((sortNodes [(("S", "A") : Node), ("S", "B")]).filter
      (fun n => n ∉ kahnPart [(("S", "A") : Node), ("S", "B")] c3Deps)).Pairwise
      (fun a b => nodeLe a b = true) :=
  C3_amended [("S", "A"), ("S", "B")] c3Deps (by decide)


theorem reprVal_append (xs : List Char) (c : Char) :
    reprVal (xs ++ [c]) = 10 * reprVal xs + charVal c := by
  unfold reprVal
  rw [List.foldl_append]
  rfl

theorem charVal_digitChar {d : Nat} (h : d < 10) : charVal (digitChar d) = d := by
  interval_cases d <;> decide

theorem natReprAux_val : ∀ (fuel n : Nat), n < fuel →
    reprVal (natReprAux fuel n) = n := by
  intro fuel
  induction fuel with
  | zero => intro n h; omega
  | succ f ih =>
    intro n h
    rw [natReprAux]
    by_cases h10 : n < 10
    · simp only [h10, if_true]
      show reprVal ([] ++ [digitChar n]) = n
      rw [reprVal_append]
      simp [reprVal, charVal_digitChar h10]
    · simp only [h10, if_false]
      rw [reprVal_append, ih (n / 10) (by omega), charVal_digitChar (Nat.mod_lt n (by omega))]
      omega

theorem natRepr_inj {m n : Nat} (h : natRepr m = natRepr n) : m = n := by
  have hd : natReprAux (m + 1) m = natReprAux (n + 1) n := congrArg String.data h
  have h1 := natReprAux_val (m + 1) m (by omega)
  have h2 := natReprAux_val (n + 1) n (by omega)
  rw [hd] at h1
  omega

theorem suffixCandidate_inj (base : String) {k l : Nat}
    (h : suffixCandidate base k = suffixCandidate base l) : k = l := by
  unfold suffixCandidate at h
  have hd := congrArg String.data h
  simp only [String.data_append] at hd
  have := List.append_cancel_left hd
  exact natRepr_inj (stringDataEq this)


theorem freshLoop_spec (base : String) (used : List String) :
    ∀ (fuel suffix : Nat),
      freshLoop base used fuel suffix ∉ used ∨
      (∀ i < fuel, suffixCandidate base (suffix + i) ∈ used) := by
  intro fuel
  induction fuel with
  | zero => intro suffix; right; intro i hi; omega
  | succ f ih =>
    intro suffix
    rw [freshLoop]
    by_cases hc : suffixCandidate base suffix ∈ used
    · simp only [hc, if_true]
      rcases ih (suffix + 1) with h | h
      · left; exact h
      · right
        intro i hi
        cases i with
        | zero => simpa using hc
        | succ i2 =>
          have := h i2 (by omega)
          simpa [Nat.add_assoc, Nat.add_comm, Nat.add_left_comm] using this
    · rw [if_neg hc]
      left; exact hc

theorem pickCandidate_fresh (base : String) (used : List String) :
    pickCandidate base used ∉ used := by
  unfold pickCandidate
  by_cases hb : base ∈ used
  · simp only [hb, if_true]
    rcases freshLoop_spec base used (used.length + 1) 2 with h | h
    · exact h
    · exfalso
      set L := (List.range (used.length + 1)).map (fun i => suffixCandidate base (2 + i)) with hL
      have hnd : L.Nodup := by
        apply List.Nodup.map
        · intro a b hab
          have := suffixCandidate_inj base hab
          omega
        · exact List.nodup_range _
      have hsub : ∀ x ∈ L, x ∈ used := by
        intro x hx
        rcases List.mem_map.mp hx with ⟨i, hi, rfl⟩
        exact h i (by simpa using hi)
      have hcard : L.length ≤ used.toFinset.card := by
        calc L.length = L.toFinset.card := (List.toFinset_card_of_nodup hnd).symm
        _ ≤ used.toFinset.card := by
            apply Finset.card_le_card
            intro x hx
            exact List.mem_toFinset.mpr (hsub x (List.mem_toFinset.mp hx))
      have := List.toFinset_card_le used
      have hlen : L.length = used.length + 1 := by simp [hL]
      omega
  · rw [if_neg hb]
    exact hb


theorem buildNameMapAux_invariant :
    ∀ (l : List String) (out : List (String × String)) (used : List String),
      ((out.map Prod.snd).Nodup ∧ (∀ s ∈ out.map Prod.snd, s ∈ used)) →
      (((buildNameMapAux l out used).1.map Prod.snd).Nodup ∧
        ∀ s ∈ (buildNameMapAux l out used).1.map Prod.snd, s ∈ (buildNameMapAux l out used).2) := by
  intro l
  induction l with
  | nil => intro out used h; exact h
  | cons x rest ih =>
    intro out used h
    rw [buildNameMapAux]
    apply ih
    constructor
    · rw [List.map_append]
      apply List.Nodup.append h.1 (by simp)
      intro a ha hb
      have hcand : a = pickCandidate (sanitize_type_identifier x "Type") used := by
        simpa using hb
      exact pickCandidate_fresh _ used (hcand ▸ h.2 a ha)
    · intro s hs
      rw [List.map_append] at hs
      rcases List.mem_append.mp hs with hs | hs
      · exact List.mem_cons_of_mem _ (h.2 s hs)
      · have : s = pickCandidate (sanitize_type_identifier x "Type") used := by simpa using hs
        rw [this]
        exact List.mem_cons_self _ _

theorem buildNameMapAux_keys :
    ∀ (l : List String) (out : List (String × String)) (used : List String),
      (buildNameMapAux l out used).1.map Prod.fst = out.map Prod.fst ++ l := by
  intro l
  induction l with
  | nil => intro out used; simp [buildNameMapAux]
  | cons x rest ih =>
    intro out used
    rw [buildNameMapAux, ih]
    simp

theorem alookup_isSome_of_key {α : Type} {l : List (String × α)} {k : String}
    (h : ∃ p ∈ l, p.1 = k) : (alookup l k).isSome := by
  unfold alookup
  rcases h with ⟨p, hp, hk⟩
  have : l.reverse.find? (fun q => q.1 == k) ≠ none := by
    intro hn
    have := List.find?_eq_none.mp hn p (List.mem_reverse.mpr hp)
    simp [hk] at this
  cases hf : l.reverse.find? (fun q => q.1 == k) with
  | none => exact absurd hf this
  | some q => simp

/-- C5: the name map built by iterating the definition names in sorted
order, sanitizing each and appending `_2`, `_3`, … on collision, maps every
input name (totality) and never sends two distinct input names to the same
target identifier (injectivity). -/
theorem C5_name_map_injective (definition_names : List String) :
    (∀ n ∈ definition_names, ∃ v, alookup (build_name_map definition_names) n = some v) ∧
    (∀ a b va vb, a ≠ b →
      alookup (build_name_map definition_names) a = some va →
      alookup (build_name_map definition_names) b = some vb → va ≠ vb) := by
  have hinv := buildNameMapAux_invariant (sortStrings definition_names) [] []
    (by constructor <;> simp)
  constructor
  · intro n hn
    have hkeys := buildNameMapAux_keys (sortStrings definition_names) [] []
    have hnk : n ∈ (build_name_map definition_names).map Prod.fst := by
      rw [build_name_map, hkeys]
      simpa using (stableSortBy_perm strLe definition_names).mem_iff.mpr hn
    rcases List.mem_map.mp hnk with ⟨p, hp, hpk⟩
    have := alookup_isSome_of_key (l := build_name_map definition_names) (k := n) ⟨p, hp, hpk⟩
    cases hv : alookup (build_name_map definition_names) n with
    | none => rw [hv] at this; simp at this
    | some v => exact ⟨v, rfl⟩
  · intro a b va vb hab ha hb hvv
    subst hvv
    have hma := alookup_some_mem ha
    have hmb := alookup_some_mem hb
    have : (a, va) = (b, va) := by
      apply List.inj_on_of_nodup_map hinv.1 hma hmb
      rfl
    exact hab (congrArg Prod.fst this)
/-- C5 witness: totality at a small name list with a sanitisation
collision (`Foo` and `Foo `, which sanitizes to `Foo_`). -/
theorem C5_name_map_injective_witness :
    ∃ v, alookup (build_name_map ["Foo", "Foo "]) "Foo" = some v :=
  (C5_name_map_injective ["Foo", "Foo "]).1 "Foo" (by decide)

theorem alookup_append_last {α : Type} (l : List (String × α)) (k : String) (v : α) :
    alookup (l ++ [(k, v)]) k = some v := by
  simp [alookup, List.reverse_append]

theorem canonModel_coherent (mm : SchemaModel) :
    ∀ n, ((canonModel mm).structFind n).isSome = true →
      n ∈ (canonModel mm).structNames := by
  intro n h
  rw [Option.isSome_iff_exists] at h
  obtain ⟨v, hv⟩ := h
  have hmem : (n, v) ∈ mm.structures := alookup_some_mem hv
  show n ∈ sortedKeys mm.structures
  unfold sortedKeys sortStrings
  rw [(stableSortBy_perm strLe _).mem_iff, List.mem_dedup]
  exact List.mem_map.mpr ⟨(n, v), hmem, rfl⟩

theorem length_filter_mono {α : Type} (p q : α → Bool)
    (h : ∀ x, q x = true → p x = true) :
    ∀ l : List α, (l.filter q).length ≤ (l.filter p).length := by
  intro l
  induction l with
  | nil => simp
  | cons x rest ih =>
    by_cases hq : q x = true
    · rw [List.filter_cons_of_pos hq, List.filter_cons_of_pos (h x hq)]
      simpa using ih
    · rw [List.filter_cons_of_neg (by simpa using hq)]
      by_cases hp : p x = true
      · rw [List.filter_cons_of_pos hp]
        simp
        omega
      · rw [List.filter_cons_of_neg (by simpa using hp)]
        exact ih

theorem length_filter_strict {α : Type} (p q : α → Bool)
    (h : ∀ x, q x = true → p x = true) (a : α)
    (hpa : p a = true) (hqa : q a = false) :
    ∀ l : List α, a ∈ l → (l.filter q).length < (l.filter p).length := by
  intro l
  induction l with
  | nil => intro ha; simp at ha
  | cons x rest ih =>
    intro ha
    rcases List.mem_cons.mp ha with rfl | ha
    · rw [List.filter_cons_of_pos hpa, List.filter_cons_of_neg (by simp [hqa])]
      have := length_filter_mono p q h rest
      simp
      omega
    · by_cases hq : q x = true
      · rw [List.filter_cons_of_pos hq, List.filter_cons_of_pos (h x hq)]
        simpa using ih ha
      · rw [List.filter_cons_of_neg (by simpa using hq)]
        by_cases hp : p x = true
        · rw [List.filter_cons_of_pos hp]
          have := ih ha
          simp
          omega
        · rw [List.filter_cons_of_neg (by simpa using hp)]
          exact ih ha

/-- **C9.** `collect_flattened_properties` terminates on every schema and
every struct name, even when the parent chain is cyclic: (1) the result is
independent of the recursion budget once the budget exceeds the number of
structure names not yet on the recursion stack, so the unbounded Python
recursion reaches a fixed finite answer; (2) a name already on the stack
returns the empty list at once (the stack cuts the cycle); (3) a cache hit
returns the cached result and leaves the cache unchanged; (4) a computing
call stores its result in the cache under its own name, so a repeated call
returns the cached result. -/
theorem C9_flatten_terminates (m : CModel)
    (hcoh : ∀ n, (m.structFind n).isSome = true → n ∈ m.structNames) :
    (∀ (name : String) (stack : List String) (fuel₁ fuel₂ : Nat),
      (m.structNames.filter (fun n => n ∉ stack)).length < fuel₁ →
      (m.structNames.filter (fun n => n ∉ stack)).length < fuel₂ →
      collect_flattened_properties m fuel₁ name stack =
        collect_flattened_properties m fuel₂ name stack) ∧
    (∀ (name : String) (stack : List String), name ∈ stack →
      ∀ fuel, collect_flattened_properties m fuel name stack = []) ∧
    (∀ (fuel : Nat) (cache : List (String × List FlattenedProperty))
        (name : String) (stack : List String)
        (cached : List FlattenedProperty),
      alookup cache name = some cached →
      collect_flattened_cached m (fuel + 1) cache name stack = (cached, cache)) ∧
    (∀ (fuel : Nat) (cache : List (String × List FlattenedProperty))
        (name : String) (stack : List String),
      name ∉ stack → alookup cache name = none →
      (m.structFind name).isSome = true →
      alookup (collect_flattened_cached m (fuel + 1) cache name stack).2 name =
        some (collect_flattened_cached m (fuel + 1) cache name stack).1) := by
  refine ⟨?_, ?_, ?_, ?_⟩
  · have main : ∀ b (name : String) (stack : List String) (fuel₁ fuel₂ : Nat),
        (m.structNames.filter (fun n => n ∉ stack)).length ≤ b →
        (m.structNames.filter (fun n => n ∉ stack)).length < fuel₁ →
        (m.structNames.filter (fun n => n ∉ stack)).length < fuel₂ →
        collect_flattened_properties m fuel₁ name stack =
          collect_flattened_properties m fuel₂ name stack := by
      intro b
      induction b using Nat.strong_induction_on with
      | _ b ih =>
        intro name stack fuel₁ fuel₂ hb h1 h2
        cases fuel₁ with
        | zero => omega
        | succ f₁ =>
          cases fuel₂ with
          | zero => omega
          | succ f₂ =>
            rw [collect_flattened_properties, collect_flattened_properties]
            by_cases hmem : name ∈ stack
            · simp [hmem]
            · cases hsd : m.structFind name with
              | none => simp [hmem, hsd]
              | some sd =>
                cases hps : sd.parents with
                | nil => simp [hmem, hsd, hps]
                | cons parent prest =>
                  cases prest with
                  | cons p2 pr2 => simp [hmem, hsd, hps]
                  | nil =>
                    have hname_mem : name ∈ m.structNames :=
                      hcoh name (by simp [hsd])
                    have hstrict :
                        (m.structNames.filter (fun n => n ∉ name :: stack)).length <
                        (m.structNames.filter (fun n => n ∉ stack)).length := by
                      apply length_filter_strict _ _ ?_ name ?_ ?_ _ hname_mem
                      · intro x hx
                        simp only [decide_eq_true_eq] at hx ⊢
                        intro hc
                        exact hx (List.mem_cons_of_mem _ hc)
                      · simpa using hmem
                      · simp
                    have hrec := ih ((m.structNames.filter
                        (fun n => n ∉ name :: stack)).length)
                      (by omega) parent (name :: stack) f₁ f₂ (le_refl _)
                      (by omega) (by omega)
                    simp [hmem, hsd, hps, hrec]
    exact fun name stack fuel₁ fuel₂ h1 h2 =>
      main _ name stack fuel₁ fuel₂ (le_refl _) h1 h2
  · intro name stack hmem fuel
    cases fuel with
    | zero => rfl
    | succ f => simp [collect_flattened_properties, hmem]
  · intro fuel cache name stack cached hc
    rw [collect_flattened_cached, hc]
  · intro fuel cache name stack hns hmiss hsdsome
    rw [Option.isSome_iff_exists] at hsdsome
    obtain ⟨sd, hsd⟩ := hsdsome
    rw [collect_flattened_cached]
    simp only [hmiss, hns, hsd, if_false, ite_false]
    exact alookup_append_last _ name _

/-- Witness for C9 on a genuinely cyclic schema (`A extends B`,
`B extends A`): the flattening of `A` stabilises from budget 3 on, a
revisited name returns `[]`, a cache hit returns the cached flattening,
and a computing call caches its result. -/
theorem C9_flatten_terminates_witness :
    collect_flattened_properties c9Model 3 "A" [] =
      collect_flattened_properties c9Model 50 "A" [] ∧
    collect_flattened_properties c9Model 50 "A" ["A", "B"] = [] ∧
    collect_flattened_cached c9Model 5 c9Cache "A" [] = (c9FlatA, c9Cache) ∧
    alookup (collect_flattened_cached c9Model 3 [] "A" []).2 "A" =
      some (collect_flattened_cached c9Model 3 [] "A" []).1 := by
  obtain ⟨h₁, h₂, h₃, h₄⟩ :=
    C9_flatten_terminates c9Model (canonModel_coherent (parse_schema c9Schema))
  exact ⟨h₁ "A" [] 3 50 (by decide) (by decide),
         h₂ "A" ["A", "B"] (by decide) 50,
         h₃ 4 c9Cache "A" [] c9FlatA (by decide),
         h₄ 2 [] "A" [] (by decide) rfl (by decide)⟩

/-- `generate_protocol_header` factors through the canonical model. -/
theorem header_of_model (s : Schema) :
    generate_protocol_header s = headerOfCModel (canonModel (parse_schema s)) := rfl

/-- The canonical model only depends on the definition entries as keyed
sets: permuting the five entry lists leaves it unchanged, provided the
structure, enumeration and alias names and the request and notification
methods are each duplicate-free. -/
theorem canonModel_congr_perm (s₁ s₂ : Schema)
    (hs : s₁.structures.Perm s₂.structures)
    (he : s₁.enumerations.Perm s₂.enumerations)
    (ha : s₁.typeAliases.Perm s₂.typeAliases)
    (hr : s₁.requests.Perm s₂.requests)
    (hn : s₁.notifications.Perm s₂.notifications)
    (hnds : (s₁.structures.map RawStructure.name).Nodup)
    (hnde : (s₁.enumerations.map EnumDef.name).Nodup)
    (hnda : (s₁.typeAliases.map AliasDef.name).Nodup)
    (hndr : (s₁.requests.map RequestDef.method).Nodup)
    (hndn : (s₁.notifications.map NotificationDef.method).Nodup) :
    canonModel (parse_schema s₁) = canonModel (parse_schema s₂) := by
  unfold canonModel parse_schema
  simp only [CModel.mk.injEq]
  refine ⟨?_, ?_, ?_, ?_, ?_, ?_, ?_, ?_⟩
  · funext k
    exact alookup_congr_perm (hs.map _)
      (by simpa [List.map_map, Function.comp] using hnds) k
  · exact sortedKeys_congr_perm (hs.map _)
  · funext k
    exact alookup_congr_perm (he.map _)
      (by simpa [List.map_map, Function.comp] using hnde) k
  · exact sortedKeys_congr_perm (he.map _)
  · funext k
    exact alookup_congr_perm (ha.map _)
      (by simpa [List.map_map, Function.comp] using hnda) k
  · exact sortedKeys_congr_perm (ha.map _)
  · exact sortByMethod_congr_perm _ hr hndr
  · exact sortByMethod_congr_perm _ hn hndn

/-- Appending an entry for another key leaves a lookup unchanged. -/
theorem alookup_append_ne {α : Type} (l : List (String × α)) (k k' : String)
    (v : α) (h : k' ≠ k) : alookup (l ++ [(k, v)]) k' = alookup l k' := by
  unfold alookup
  rw [List.reverse_append]
  have hbe : (k == k') = false := beq_eq_false_iff_ne.mpr (Ne.symm h)
  simp [List.find?, hbe]

/-- With duplicate-free keys, lookup returns the stored pair. -/
theorem alookup_of_mem_nodup {α : Type} {l : List (String × α)} {k : String}
    {v : α} (hnd : (l.map Prod.fst).Nodup) (hmem : (k, v) ∈ l) :
    alookup l k = some v := by
  have hflen := filter_key_length_le_one k l hnd
  have hin : (k, v) ∈ l.filter (fun p => p.1 == k) :=
    List.mem_filter.mpr ⟨hmem, by simp⟩
  have hsingle : l.filter (fun p => p.1 == k) = [(k, v)] := by
    rcases hf : l.filter (fun p => p.1 == k) with _ | ⟨x, rest⟩
    · rw [hf] at hin; simp at hin
    · rw [hf] at hin hflen
      have hrest : rest = [] := by
        cases rest with
        | nil => rfl
        | cons y ys => simp at hflen
      subst hrest
      simp at hin
      rw [hf, ← hin]
  unfold alookup
  rw [find?_eq_head?_filter, List.filter_reverse, hsingle]
  rfl

/-- Lookup of an absent key returns nothing. -/
theorem alookup_none_of_not_mem {α : Type} {l : List (String × α)} {k : String}
    (h : k ∉ l.map Prod.fst) : alookup l k = none := by
  unfold alookup
  rw [List.find?_eq_none.mpr ?_]
  · rfl
  · intro x hx
    simp only [beq_iff_eq]
    intro hk
    exact h (List.mem_map.mpr ⟨x, List.mem_reverse.mp hx, hk⟩)

/-- The canonical structure-name list is duplicate-free. -/
theorem canonModel_structNames_nodup (mm : SchemaModel) :
    (canonModel mm).structNames.Nodup := by
  show (sortedKeys mm.structures).Nodup
  unfold sortedKeys sortStrings
  exact ((stableSortBy_perm strLe _).nodup_iff).mpr (List.nodup_dedup _)

/-- `struct_dependencies` is its flattening-parameterised form applied
to the cacheless flattening. -/
theorem struct_dependencies_with_plain (m : CModel) (n : String) :
    struct_dependencies_with m (collectFlattened m n) n = struct_dependencies m n := rfl

/-- `emit_struct` is its flattening-parameterised form applied to the
cacheless flattening. -/
theorem emit_struct_with_plain (m : CModel) (nm : List (String × String))
    (n : String) (d : Diags) :
    emit_struct_with m nm (collectFlattened m) n d = emit_struct m nm n d := rfl

/-- The emission loop over the cacheless flattening is `emitBlocks`. -/
theorem emitBlocks_with_plain (m : CModel) (nm : List (String × String)) :
    ∀ (l : List Node) (d : Diags),
      emitBlocks_with m nm (collectFlattened m) l d = emitBlocks m nm l d := by
  intro l
  induction l with
  | nil => intro d; rfl
  | cons node rest ih =>
    intro d
    rw [emitBlocks_with, emitBlocks]
    rw [emit_struct_with_plain]
    rw [ih]

/-- The ordered pipeline factors through the canonical model. -/
theorem headerOrdered_of_model (s : Schema) (order : List String) :
    generate_protocol_header_ordered s order =
      headerOrderedOfCModel (canonModel (parse_schema s)) order := rfl

/-- On a parent graph with a strictly decreasing rank (no cycles), the
flattening is independent of the recursion stack and of the budget, once
the budget exceeds the rank. -/
theorem collect_acyclic_congr (m : CModel) (rank : String → Nat)
    (hrank : ∀ n sd parent, m.structFind n = some sd → sd.parents = [parent] →
      (m.structFind parent).isSome = true → rank parent < rank n) :
    ∀ (k : Nat) (name : String) (stack stack' : List String) (fuel fuel' : Nat),
      rank name ≤ k → rank name < fuel → rank name < fuel' →
      (∀ x ∈ stack, rank name < rank x) →
      (∀ x ∈ stack', rank name < rank x) →
      collect_flattened_properties m fuel name stack =
        collect_flattened_properties m fuel' name stack' := by
  intro k
  induction k using Nat.strong_induction_on with
  | _ k ih =>
    intro name stack stack' fuel fuel' hk h1 h2 hst hst'
    cases fuel with
    | zero => omega
    | succ f =>
      cases fuel' with
      | zero => omega
      | succ f' =>
        rw [collect_flattened_properties, collect_flattened_properties]
        have hmem : name ∉ stack := fun hc => by
          have := hst name hc; omega
        have hmem' : name ∉ stack' := fun hc => by
          have := hst' name hc; omega
        cases hsd : m.structFind name with
        | none => simp [hmem, hmem', hsd]
        | some sd =>
          cases hps : sd.parents with
          | nil => simp [hmem, hmem', hsd, hps]
          | cons parent prest =>
            cases prest with
            | cons p2 pr2 => simp [hmem, hmem', hsd, hps]
            | nil =>
              by_cases hpd : (m.structFind parent).isSome = true
              · have hlt : rank parent < rank name := hrank name sd parent hsd hps hpd
                have hrec := ih (rank parent) (by omega) parent
                  (name :: stack) (name :: stack') f f' (le_refl _)
                  (by omega) (by omega)
                  (by
                    intro x hx
                    rcases List.mem_cons.mp hx with rfl | hx
                    · exact hlt
                    · have := hst x hx; omega)
                  (by
                    intro x hx
                    rcases List.mem_cons.mp hx with rfl | hx
                    · exact hlt
                    · have := hst' x hx; omega)
                simp [hmem, hmem', hsd, hps, hpd, hrec]
              · simp [hmem, hmem', hsd, hps, hpd]

/-- Memo-cache transparency on acyclic parent graphs: against any
correct cache, a cached call returns exactly the cacheless flattening
and keeps the cache correct. -/
theorem cached_acyclic (m : CModel) (rank : String → Nat)
    (hrank : ∀ n sd parent, m.structFind n = some sd → sd.parents = [parent] →
      (m.structFind parent).isSome = true → rank parent < rank n)
    (hbnd : ∀ n, rank n < flattenFuel m) :
    ∀ (k : Nat) (name : String) (fuel : Nat)
      (cache : List (String × List FlattenedProperty)) (stack : List String),
      rank name ≤ k → rank name < fuel →
      (∀ x ∈ stack, rank name < rank x) →
      FlatCacheOK m cache →
      (collect_flattened_cached m fuel cache name stack).1 =
        collect_flattened_properties m (flattenFuel m) name [] ∧
      FlatCacheOK m (collect_flattened_cached m fuel cache name stack).2 := by
  intro k
  induction k using Nat.strong_induction_on with
  | _ k ih =>
    intro name fuel cache stack hk hfuel hst hok
    cases fuel with
    | zero => omega
    | succ f =>
      cases hc : alookup cache name with
      | some v =>
        have hred : collect_flattened_cached m (f + 1) cache name stack = (v, cache) := by
          rw [collect_flattened_cached, hc]
        rw [hred]
        exact ⟨hok name v hc, hok⟩
      | none =>
        have hmem : name ∉ stack := fun hcon => absurd (hst name hcon) (lt_irrefl _)
        cases hsd : m.structFind name with
        | none =>
          have hred : collect_flattened_cached m (f + 1) cache name stack = ([], cache) := by
            rw [collect_flattened_cached]
            simp only [hc, hmem, hsd, if_false, ite_false]
          have huncached : collect_flattened_properties m (flattenFuel m) name [] = [] := by
            simp [flattenFuel, collect_flattened_properties, hsd]
          rw [hred, huncached]
          exact ⟨rfl, hok⟩
        | some sd =>
          have hmkOK : ∀ (pre : List FlattenedProperty)
              (cache' : List (String × List FlattenedProperty)),
              FlatCacheOK m cache' →
              pre ++ sd.properties.map (fun p => (⟨p, name⟩ : FlattenedProperty)) =
                collect_flattened_properties m (flattenFuel m) name [] →
              FlatCacheOK m (cache' ++
                [(name, pre ++ sd.properties.map
                  (fun p => (⟨p, name⟩ : FlattenedProperty)))]) := by
            intro pre cache' hok' hout key v hv
            by_cases hkey : key = name
            · subst hkey
              rw [alookup_append_last] at hv
              rw [← hout]
              exact (Option.some.inj hv).symm
            · rw [alookup_append_ne _ _ _ _ hkey] at hv
              exact hok' key v hv
          cases hps : sd.parents with
          | nil =>
            have hred : collect_flattened_cached m (f + 1) cache name stack =
                (sd.properties.map (fun p => ⟨p, name⟩),
                 cache ++ [(name, sd.properties.map (fun p => ⟨p, name⟩))]) := by
              rw [collect_flattened_cached]
              simp only [hc, hmem, hsd, hps, if_false, ite_false, List.nil_append]
            have huncached : collect_flattened_properties m (flattenFuel m) name [] =
                sd.properties.map (fun p => ⟨p, name⟩) := by
              simp [flattenFuel, collect_flattened_properties, hsd, hps]
            rw [hred]
            refine ⟨huncached.symm, ?_⟩
            exact hmkOK [] cache hok (by simpa using huncached.symm)
          | cons parent prest =>
            cases prest with
            | cons p2 pr2 =>
              have hred : collect_flattened_cached m (f + 1) cache name stack =
                  (sd.properties.map (fun p => ⟨p, name⟩),
                   cache ++ [(name, sd.properties.map (fun p => ⟨p, name⟩))]) := by
                rw [collect_flattened_cached]
                simp only [hc, hmem, hsd, hps, if_false, ite_false, List.nil_append]
              have huncached : collect_flattened_properties m (flattenFuel m) name [] =
                  sd.properties.map (fun p => ⟨p, name⟩) := by
                simp [flattenFuel, collect_flattened_properties, hsd, hps]
              rw [hred]
              refine ⟨huncached.symm, ?_⟩
              exact hmkOK [] cache hok (by simpa using huncached.symm)
            | nil =>
              by_cases hpd : (m.structFind parent).isSome = true
              · have hlt : rank parent < rank name := hrank name sd parent hsd hps hpd
                obtain ⟨ih1, ih2⟩ := ih (rank parent) (by omega) parent f cache
                  (name :: stack) (le_refl _) (by omega)
                  (by
                    intro x hx
                    rcases List.mem_cons.mp hx with rfl | hx
                    · exact hlt
                    · have := hst x hx; omega)
                  hok
                have hbridge : collect_flattened_properties m (flattenFuel m) parent [] =
                    collect_flattened_properties m m.structNames.length parent [name] := by
                  have hbn := hbnd name
                  have hbp := hbnd parent
                  rw [flattenFuel] at hbn hbp
                  exact collect_acyclic_congr m rank hrank (rank parent) parent [] [name]
                    (flattenFuel m) m.structNames.length (le_refl _) (by rw [flattenFuel]; omega)
                    (by omega) (by intro x hx; simp at hx)
                    (by
                      intro x hx
                      rcases List.mem_singleton.mp hx with rfl
                      exact hlt)
                have hred : collect_flattened_cached m (f + 1) cache name stack =
                    ((collect_flattened_cached m f cache parent (name :: stack)).1 ++
                       sd.properties.map (fun p => ⟨p, name⟩),
                     (collect_flattened_cached m f cache parent (name :: stack)).2 ++
                       [(name,
                         (collect_flattened_cached m f cache parent (name :: stack)).1 ++
                           sd.properties.map (fun p => ⟨p, name⟩))]) := by
                  rw [collect_flattened_cached]
                  simp only [hc, hmem, hsd, hps, hpd, if_false, ite_false, if_true]
                have huncached : collect_flattened_properties m (flattenFuel m) name [] =
                    collect_flattened_properties m m.structNames.length parent [name] ++
                      sd.properties.map (fun p => ⟨p, name⟩) := by
                  simp [flattenFuel, collect_flattened_properties, hsd, hps, hpd]
                have hout : (collect_flattened_cached m f cache parent (name :: stack)).1 ++
                    sd.properties.map (fun p => ⟨p, name⟩) =
                    collect_flattened_properties m (flattenFuel m) name [] := by
                  rw [ih1, hbridge, ← huncached]
                rw [hred]
                exact ⟨hout, hmkOK _ _ ih2 hout⟩
              · have hred : collect_flattened_cached m (f + 1) cache name stack =
                    (sd.properties.map (fun p => ⟨p, name⟩),
                     cache ++ [(name, sd.properties.map (fun p => ⟨p, name⟩))]) := by
                  rw [collect_flattened_cached]
                  simp only [hc, hmem, hsd, hps, hpd, if_false, ite_false,
                    Bool.false_eq_true, List.nil_append]
                have huncached : collect_flattened_properties m (flattenFuel m) name [] =
                    sd.properties.map (fun p => ⟨p, name⟩) := by
                  simp [flattenFuel, collect_flattened_properties, hsd, hps, hpd]
                rw [hred]
                refine ⟨huncached.symm, ?_⟩
                exact hmkOK [] cache hok (by simpa using huncached.symm)

/-- On acyclic parent graphs the dependency pass computes the cacheless
dependency sets in iteration order and leaves a correct cache. -/
theorem depsLoop_spec (m : CModel) (rank : String → Nat)
    (hrank : ∀ n sd parent, m.structFind n = some sd → sd.parents = [parent] →
      (m.structFind parent).isSome = true → rank parent < rank n)
    (hbnd : ∀ n, rank n < flattenFuel m) :
    ∀ (o : List String) (cache : List (String × List FlattenedProperty))
      (acc : List (String × List Node)),
      FlatCacheOK m cache →
      (depsLoop m o cache acc).1 =
        acc ++ o.map (fun n => (n, struct_dependencies m n)) ∧
      FlatCacheOK m (depsLoop m o cache acc).2 := by
  intro o
  induction o with
  | nil => intro cache acc hok; simp [depsLoop, hok]
  | cons n rest ih =>
    intro cache acc hok
    obtain ⟨h1, h2⟩ := cached_acyclic m rank hrank hbnd (rank n) n (flattenFuel m)
      cache [] (le_refl _) (hbnd n) (by intro x hx; simp at hx) hok
    have hval : struct_dependencies_with m
        (collect_flattened_cached m (flattenFuel m) cache n []).1 n =
        struct_dependencies m n := by
      rw [h1]
      exact struct_dependencies_with_plain m n
    obtain ⟨h3, h4⟩ := ih (collect_flattened_cached m (flattenFuel m) cache n []).2
      (acc ++ [(n, struct_dependencies_with m
        (collect_flattened_cached m (flattenFuel m) cache n []).1 n)]) h2
    rw [depsLoop]
    refine ⟨?_, h4⟩
    rw [h3, hval]
    simp

/-- When the iteration order enumerates the structure names, the
dependency function built by the pass equals the cacheless one. -/
theorem nodeDepsOrdered_eq (m : CModel)
    (hcoh : ∀ n, (m.structFind n).isSome = true → n ∈ m.structNames)
    (hnodup : m.structNames.Nodup)
    (o : List String) (ho : o.Perm m.structNames) :
    nodeDepsOrdered m (o.map (fun n => (n, struct_dependencies m n))) = nodeDeps m := by
  funext node
  unfold nodeDepsOrdered nodeDeps
  by_cases hS : (node.1 == "S") = true
  · simp only [hS, if_true]
    have hfst : (o.map (fun n => (n, struct_dependencies m n))).map Prod.fst = o := by
      rw [List.map_map]
      show List.map (fun n => n) o = o
      exact List.map_id o
    have hval : (alookup (o.map (fun n => (n, struct_dependencies m n))) node.2).getD [] =
        struct_dependencies m node.2 := by
      by_cases hmemo : node.2 ∈ o
      · have hnd2 : ((o.map (fun n => (n, struct_dependencies m n))).map Prod.fst).Nodup := by
          rw [hfst]
          exact ho.nodup_iff.mpr hnodup
        rw [alookup_of_mem_nodup hnd2 (List.mem_map.mpr ⟨node.2, hmemo, rfl⟩)]
        rfl
      · have hnotin : node.2 ∉ (o.map (fun n => (n, struct_dependencies m n))).map Prod.fst := by
          rw [hfst]
          exact hmemo
        rw [alookup_none_of_not_mem hnotin]
        have hnm : node.2 ∉ m.structNames := fun hcc => hmemo (ho.mem_iff.mpr hcc)
        have hfind : m.structFind node.2 = none := by
          cases hf : m.structFind node.2 with
          | none => rfl
          | some sd => exact absurd (hcoh node.2 (by simp [hf])) hnm
        have hsd0 : struct_dependencies m node.2 = [] := by
          unfold struct_dependencies
          rw [hfind]
          rfl
        rw [hsd0]
        rfl
    rw [hval]
  · simp only [hS, Bool.false_eq_true, if_false]

/-- On acyclic parent chains the cache-explicit pipeline is independent
of the iteration order and equals the cache-transparent pipeline. -/
theorem headerOrdered_eq (m : CModel)
    (hcoh : ∀ n, (m.structFind n).isSome = true → n ∈ m.structNames)
    (hnodup : m.structNames.Nodup)
    (rank : String → Nat)
    (hrank : ∀ n sd parent, m.structFind n = some sd → sd.parents = [parent] →
      (m.structFind parent).isSome = true → rank parent < rank n)
    (hbnd : ∀ n, rank n < flattenFuel m)
    (o : List String) (ho : o.Perm m.structNames) :
    headerOrderedOfCModel m o = headerOfCModel m := by
  obtain ⟨hd1, hd2⟩ := depsLoop_spec m rank hrank hbnd o [] []
    (by intro key v hv; simp [alookup] at hv)
  have hdeps : nodeDepsOrdered m (depsLoop m o [] []).1 = nodeDeps m := by
    rw [hd1]
    simp only [List.nil_append]
    exact nodeDepsOrdered_eq m hcoh hnodup o ho
  have hfr : flattenRead m (depsLoop m o [] []).2 = collectFlattened m := by
    funext n2
    exact (cached_acyclic m rank hrank hbnd (rank n2) n2 (flattenFuel m)
      (depsLoop m o [] []).2 [] (le_refl _) (hbnd n2)
      (by intro x hx; simp at hx) hd2).1
  simp only [headerOrderedOfCModel, headerOfCModel, build_node_order]
  rw [hdeps, hfr, emitBlocks_with_plain]

set_option maxRecDepth 8000 in
/-- **C6 counterexample.** On the cyclic-parent schema, two enumeration
orders of the `struct_names` set - a hidden per-process parameter of the
real run (hash-seed dependent), not a function of the schema - produce
different headers: the run-wide flatten cache stores lists computed under
a non-empty recursion stack, and which struct is visited first decides
where the cycle is cut.  So byte-identity across runs fails on such
schemas, refuting the unconditional determinism claim. -/
theorem C6_counterexample :
    ["A", "B", "C"].Perm (canonModel (parse_schema c6CycSchema)).structNames ∧
    ["B", "C", "A"].Perm (canonModel (parse_schema c6CycSchema)).structNames ∧
    generate_protocol_header_ordered c6CycSchema ["A", "B", "C"] ≠
      generate_protocol_header_ordered c6CycSchema ["B", "C", "A"] :=
  ⟨by decide, by decide, by decide⟩

/-- **C6.** (amended) The generator is deterministic on schemas whose
single-parent inheritance chains are acyclic (witnessed by a bounded
strictly decreasing rank) and whose structure, enumeration and alias
names and request and notification methods are duplicate-free: any two
runs - with any `struct_names` set-iteration orders, on the same schema
or on one with permuted definition entries - produce byte-identical
output.  On cyclic-parent schemas this fails (see the counterexample):
the flatten memo cache makes the output depend on the set-iteration
order. -/
theorem C6_amended (s₁ s₂ : Schema) (rank : String → Nat)
    (hs : s₁.structures.Perm s₂.structures)
    (he : s₁.enumerations.Perm s₂.enumerations)
    (ha : s₁.typeAliases.Perm s₂.typeAliases)
    (hr : s₁.requests.Perm s₂.requests)
    (hn : s₁.notifications.Perm s₂.notifications)
    (hnds : (s₁.structures.map RawStructure.name).Nodup)
    (hnde : (s₁.enumerations.map EnumDef.name).Nodup)
    (hnda : (s₁.typeAliases.map AliasDef.name).Nodup)
    (hndr : (s₁.requests.map RequestDef.method).Nodup)
    (hndn : (s₁.notifications.map NotificationDef.method).Nodup)
    (hrank : ∀ n sd parent,
      (canonModel (parse_schema s₁)).structFind n = some sd → sd.parents = [parent] →
      ((canonModel (parse_schema s₁)).structFind parent).isSome = true →
      rank parent < rank n)
    (hbnd : ∀ n, rank n < flattenFuel (canonModel (parse_schema s₁))) :
    ∀ (o₁ o₂ : List String),
      o₁.Perm (canonModel (parse_schema s₁)).structNames →
      o₂.Perm (canonModel (parse_schema s₂)).structNames →
      generate_protocol_header_ordered s₁ o₁ =
        generate_protocol_header_ordered s₂ o₂ := by
  intro o₁ o₂ ho₁ ho₂
  have hmodel := canonModel_congr_perm s₁ s₂ hs he ha hr hn hnds hnde hnda hndr hndn
  rw [headerOrdered_of_model, headerOrdered_of_model, ← hmodel]
  rw [← hmodel] at ho₂
  have hcoh := canonModel_coherent (parse_schema s₁)
  have hnodup := canonModel_structNames_nodup (parse_schema s₁)
  rw [headerOrdered_eq _ hcoh hnodup rank hrank hbnd o₁ ho₁,
      headerOrdered_eq _ hcoh hnodup rank hrank hbnd o₂ ho₂]

/-- Witness for C6: an acyclic two-structure schema, its entry
permutation, and two opposite iteration orders generate byte-identical
headers. -/
theorem C6_amended_witness :
    generate_protocol_header_ordered c6SchemaA ["S1", "S2"] =
      generate_protocol_header_ordered c6SchemaB ["S2", "S1"] := by
  refine C6_amended c6SchemaA c6SchemaB
    (fun n => if n = "S2" then 1 else 0)
    (by decide) (by decide) (by decide) (by decide) (by decide)
    (by decide) (by decide) (by decide) (by decide) (by decide)
    ?_ ?_ ["S1", "S2"] ["S2", "S1"] (by decide) (by decide)
  · intro n sd parent h1 h2 h3
    have hnmem : n ∈ (canonModel (parse_schema c6SchemaA)).structNames :=
      canonModel_coherent (parse_schema c6SchemaA) n (by simp [h1])
    have hlist : (canonModel (parse_schema c6SchemaA)).structNames = ["S1", "S2"] := by
      decide
    rw [hlist] at hnmem
    rcases List.mem_cons.mp hnmem with rfl | hn2
    · have hv : (canonModel (parse_schema c6SchemaA)).structFind "S1" =
          some (parseStruct c6Struct1) := by decide
      rw [hv] at h1
      have hsd := Option.some.inj h1
      rw [← hsd] at h2
      have hp : (parseStruct c6Struct1).parents = [] := by decide
      rw [hp] at h2
      simp at h2
    · rcases List.mem_cons.mp hn2 with rfl | hn3
      · have hv : (canonModel (parse_schema c6SchemaA)).structFind "S2" =
            some (parseStruct c6Struct2) := by decide
        rw [hv] at h1
        have hsd := Option.some.inj h1
        rw [← hsd] at h2
        have hp : (parseStruct c6Struct2).parents = ["S1"] := by decide
        rw [hp] at h2
        have hpar : parent = "S1" := by
          have := List.head_eq_of_cons_eq h2.symm
          exact this
        rw [hpar]
        decide
      · simp at hn3
  · intro n
    have hf : flattenFuel (canonModel (parse_schema c6SchemaA)) = 3 := by decide
    rw [hf]
    show (if n = "S2" then 1 else 0) < 3
    by_cases h : n = "S2"
    · rw [if_pos h]; omega
    · rw [if_neg h]; omega

end LspCodegen
